import Mathlib

/-!
Verification development for a tree-walking Lox interpreter written in Rust
(scanner / parser / resolver / interpreter).  The definitions below are a
shallow embedding of the Rust sources:

* `src/value.rs`       → `Lox.Value`, `Lox.valueEq`
* `src/grammar.rs`     → `Lox.TokenType`, `Lox.Token`
* `src/scanner.rs`     → `Lox.Scanner` and its functions
* `src/environment.rs` → `Lox.Frame`, `Lox.envGet`, `Lox.ancestor`, `Lox.getAt`, ...
* `src/class.rs`       → `Lox.ClassData`, `Lox.InstData`, `Lox.findFunction`, ...
* `src/function.rs`    → `Lox.FuncData`, `Lox.callFunction`, `Lox.bindMethod`
* `src/interpreter.rs` → `Lox.evaluate`, `Lox.execute`, `Lox.executeBlock`, ...
* `src/resolver.rs`    → `Lox.Resolver` state and `Lox.resolveExpression`, ...

Rust machine floats (`f64`) are embedded as exact rationals extended with the
IEEE special values NaN and the two infinities; IEEE rounding of arithmetic is
not modelled (no theorem below depends on the numeric value of an arithmetic
result), but the equality/comparison behaviour of the special values — which
theorems do depend on — is modelled exactly.

Shared mutable objects (`Rc<RefCell<...>>`) are embedded as indices into an
explicit heap; `Rc::clone` is index copying, `std::ptr::addr_eq` is index
equality (every allocation gets a fresh index from a single counter, like
distinct live allocations have distinct addresses).

Panics (`unwrap`, `panic!`, out-of-bounds string slicing) are embedded as an
explicit `panicked` outcome / `Option.none`, so "does not panic" is a provable
proposition.  Recursion through the mutable heap and through the AST during
interpretation is embedded with an explicit fuel parameter; an `oot`
("out of time") outcome signals fuel exhaustion and is an artifact of the
embedding, not a behaviour of the program.
-/

namespace Lox

/-- Model of Rust `f64`: exact rationals plus NaN and signed infinities.
IEEE rounding is not modelled; the signed zero is conflated with zero
(this does not affect IEEE `==`/`<` behaviour on the values the
interpreter computes with, which is the only thing proved about them). -/
inductive F64 where
  | nan : F64
  | inf (positive : Bool) : F64
  | val (q : ℚ) : F64
deriving DecidableEq

/-- IEEE `==` on `f64` (Rust `PartialEq for f64`): NaN compares false with
everything, including itself; other values compare by numeric value. -/
def F64.beq : F64 → F64 → Bool
  | .val a, .val b => a == b
  | .inf a, .inf b => a == b
  | _, _ => false

/-- IEEE `<` on `f64`: any comparison involving NaN is false. -/
def F64.blt : F64 → F64 → Bool
  | .val a, .val b => decide (a < b)
  | .val _, .inf b => b
  | .inf a, .val _ => !a
  | .inf a, .inf b => !a && b
  | _, _ => false

/-- IEEE `<=` on `f64`: `a <= b` iff `a < b` or `a == b`. -/
def F64.ble (a b : F64) : Bool := F64.blt a b || F64.beq a b

/-- IEEE addition, on the exact-rational model (no rounding). -/
def F64.add : F64 → F64 → F64
  | .nan, _ => .nan
  | _, .nan => .nan
  | .val a, .val b => .val (a + b)
  | .inf a, .inf b => if a == b then .inf a else .nan
  | .inf a, .val _ => .inf a
  | .val _, .inf b => .inf b

/-- IEEE subtraction, on the exact-rational model (no rounding). -/
def F64.sub : F64 → F64 → F64
  | .nan, _ => .nan
  | _, .nan => .nan
  | .val a, .val b => .val (a - b)
  | .inf a, .inf b => if a == b then .nan else .inf a
  | .inf a, .val _ => .inf a
  | .val _, .inf b => .inf !b

/-- IEEE multiplication, on the exact-rational model (no rounding). -/
def F64.mul : F64 → F64 → F64
  | .nan, _ => .nan
  | _, .nan => .nan
  | .val a, .val b => .val (a * b)
  | .inf a, .inf b => .inf (a == b)
  | .inf a, .val q => if q = 0 then .nan else .inf (a == decide (0 < q))
  | .val q, .inf b => if q = 0 then .nan else .inf (b == decide (0 < q))

/-- IEEE division, on the exact-rational model (no rounding; the sign of a
zero divisor is conflated with `+0.0`, matching the values this scanner can
produce). `0.0 / 0.0` is NaN, `x / 0.0` is a signed infinity. -/
def F64.div : F64 → F64 → F64
  | .nan, _ => .nan
  | _, .nan => .nan
  | .val a, .val b =>
      if b = 0 then (if a = 0 then .nan else .inf (decide (0 < a))) else .val (a / b)
  | .inf _, .inf _ => .nan
  | .inf a, .val q => .inf (a == decide (0 ≤ q))
  | .val _, .inf _ => .val 0

/-- `src/grammar.rs` (`enum TokenType`).  The literal payloads mirror the
Rust enum: `StringLiteral(String)` and `Number(f64)`. -/
inductive TokenType where
  | leftParen | rightParen | leftBrace | rightBrace
  | comma | dot | minus | plus | semicolon | slash | star
  | bang | bangEqual | equal | equalEqual
  | greater | greaterEqual | less | lessEqual
  | identifier
  | stringLiteral (value : String)
  | number (value : F64)
  | andKw | classKw | elseKw | falseKw | funKw | forKw | ifKw | nilKw
  | orKw | printKw | returnKw | superKw | thisKw | trueKw | varKw | whileKw
  | eof
deriving DecidableEq

/-- `src/grammar.rs` (`struct Token`). -/
structure Token where
  tokenType : TokenType
  lexeme : String
  line : Nat
deriving DecidableEq

/-- The `Literal` enum (not present under `src/`; its variants are fully
determined by the `From<Literal> for Value` impl in `src/value.rs` and by
§3 of the specification: nil, bool, number, string). -/
inductive Literal where
  | nil : Literal
  | boolean (b : Bool) : Literal
  | string (s : String) : Literal
  | number (n : F64) : Literal
deriving DecidableEq

/-- `src/value.rs` (`enum Value`).  `Function`, `Class` and `Instance` are
`Rc<RefCell<...>>` shared references, embedded as heap indices. -/
inductive Value where
  | nil : Value
  | boolean (b : Bool) : Value
  | string (s : String) : Value
  | number (n : F64) : Value
  | function (id : Nat) : Value
  | classRef (id : Nat) : Value
  | inst (id : Nat) : Value
deriving DecidableEq

/-- `From<Literal> for Value` in `src/value.rs`. -/
def Value.ofLiteral : Literal → Value
  | .nil => .nil
  | .boolean b => .boolean b
  | .string s => .string s
  | .number n => .number n

/-- `impl PartialEq for Value` in `src/value.rs`, arm by arm.  Numbers
compare with IEEE `f64` equality; functions and classes compare with
`std::ptr::addr_eq` (index equality in the heap model).  The
`(Instance, Function)` arm is translated exactly as written in the source:
it compares the instance's address with the function's address. -/
def valueEq : Value → Value → Bool
  | .nil, .nil => true
  | .boolean a, .boolean b => a == b
  | .string a, .string b => a == b
  | .number a, .number b => F64.beq a b
  | .function a, .function b => a == b
  | .classRef a, .classRef b => a == b
  | .inst a, .function b => a == b
  | _, _ => false

/-- Rust's default `PartialEq::ne` (`Value` does not override it):
`a != b` is the negation of `a == b`. -/
def valueNe (a b : Value) : Bool := !(valueEq a b)

/-- `Interpreter::is_truthy` in `src/interpreter.rs`. -/
def isTruthy : Value → Bool
  | .nil => false
  | .boolean b => b
  | _ => true

/-- Discriminant of a `Value` variant, for stating "mixed-type" claims. -/
def Value.variantIdx : Value → Nat
  | .nil => 0
  | .boolean _ => 1
  | .string _ => 2
  | .number _ => 3
  | .function _ => 4
  | .classRef _ => 5
  | .inst _ => 6

/-- `a` is the `f64` NaN value (wrapped as a Lox number). -/
def Value.isNaN : Value → Bool
  | .number .nan => true
  | _ => false

/-- `a` is a `Value::Number`. -/
def Value.isNumber : Value → Bool
  | .number _ => true
  | _ => false

/-- `a` is a `Value::Instance`. -/
def Value.isInst : Value → Bool
  | .inst _ => true
  | _ => false

/-- Allocation discipline of the Rust runtime, as a relation between two
values: an `Instance` allocation and a `Function` allocation are distinct
live objects, so their addresses differ.  (Only the `(Instance, Function)`
equality arm ever compares addresses of differently-typed objects.) -/
def sepAlloc : Value → Value → Prop
  | .inst a, .function b => a ≠ b
  | .function a, .inst b => a ≠ b
  | _, _ => True

/-! ## Abstract syntax (`src/expression.rs`, `src/statement.rs`)

`Expression::This` and `Expression::Super` are matched (with exactly these
fields) in `src/resolver.rs` and `src/interpreter.rs` but the snapshot of
`src/expression.rs` predates them; they are included here with the field
shapes those match arms and §3 of the specification give them. -/

mutual

inductive Expression where
  | literal (l : Literal) : Expression
  | grouping (e : Expression) : Expression
  | unary (operator : Token) (right : Expression) : Expression
  | binary (left : Expression) (operator : Token) (right : Expression) : Expression
  | var (id : Nat) (name : Token) : Expression
  | assign (id : Nat) (name : Token) (right : Expression) : Expression
  | logical (left : Expression) (operator : Token) (right : Expression) : Expression
  | call (callee : Expression) (parenthesis : Token) (arguments : List Expression) : Expression
  | get (object : Expression) (name : Token) : Expression
  | set (object : Expression) (name : Token) (value : Expression) : Expression
  | this (id : Nat) (keyword : Token) : Expression
  | super (id : Nat) (keyword : Token) (method : Token) : Expression

inductive FunctionData where
  | mk (name : Token) (parameters : List Token) (body : List Statement) : FunctionData

inductive Statement where
  | expression (e : Expression) : Statement
  | function (data : FunctionData) : Statement
  | ifStmt (condition : Expression) (thenBranch : Statement)
      (elseBranch : Option Statement) : Statement
  | print (e : Expression) : Statement
  | var (name : Token) (initializer : Option Expression) : Statement
  | ret (keyword : Token) (value : Option Expression) : Statement
  | whileStmt (condition : Expression) (body : Statement) : Statement
  | block (statements : List Statement) : Statement
  | classStmt (name : Token) (superclass : Option Expression)
      (methods : List FunctionData) : Statement

end

/-- `FunctionData.name` accessor. -/
def FunctionData.name : FunctionData → Token
  | .mk n _ _ => n

/-- `FunctionData.parameters` accessor. -/
def FunctionData.parameters : FunctionData → List Token
  | .mk _ p _ => p

/-- `FunctionData.body` accessor. -/
def FunctionData.body : FunctionData → List Statement
  | .mk _ _ b => b

/-! ## Association lists (model of `std::collections::HashMap`)

The program only ever observes a `HashMap` through `get`, `contains_key`
and `insert`, so a cons-based insert with first-match lookup is
observationally identical to in-place replacement. -/

/-- `HashMap::get` (first-match lookup). -/
def alGet {κ α : Type} [DecidableEq κ] : List (κ × α) → κ → Option α
  | [], _ => none
  | (k, v) :: rest, key => if k = key then some v else alGet rest key

/-- `HashMap::insert` (later entries shadow earlier ones under `alGet`). -/
def alInsert {κ α : Type} [DecidableEq κ] (m : List (κ × α)) (key : κ) (v : α) :
    List (κ × α) :=
  (key, v) :: m

/-! ## The heap

All `Rc<RefCell<...>>` allocations live in a single heap, indexed by a
single counter, so that index equality models address equality. -/

/-- `environment.rs` `struct Inner`: one environment frame. -/
structure Frame where
  enclosing : Option Nat
  values : List (String × Value)
deriving DecidableEq

/-- `class.rs` `struct Class` (methods map names to function allocations). -/
structure ClassData where
  name : String
  superclass : Option Nat
  methods : List (String × Nat)
deriving DecidableEq

/-- `function.rs` `struct LoxFunction`. -/
structure FuncData where
  name : Token
  parameters : List Token
  body : List Statement
  isInitializer : Bool
  closure : Nat

/-- A `dyn Callable` allocation: a user `LoxFunction` or the native
`ClockFunction`. -/
inductive FuncObj where
  | lox (f : FuncData) : FuncObj
  | clock : FuncObj

/-- `class.rs` `struct Instance`. -/
structure InstData where
  cls : Nat
  fields : List (String × Value)

/-- One heap allocation. -/
inductive Obj where
  | frame (f : Frame) : Obj
  | classObj (c : ClassData) : Obj
  | funcObj (f : FuncObj) : Obj
  | instObj (i : InstData) : Obj

/-- The heap: index `i` is the object at address `i`. -/
abbrev Heap := List Obj

/-- Dereference an address. -/
def Heap.deref (h : Heap) (id : Nat) : Option Obj := h.get? id

/-- Dereference an address expected to hold an environment frame. -/
def Heap.getFrame (h : Heap) (id : Nat) : Option Frame :=
  match h.deref id with
  | some (.frame f) => some f
  | _ => none

/-- Dereference an address expected to hold a class. -/
def Heap.getClass (h : Heap) (id : Nat) : Option ClassData :=
  match h.deref id with
  | some (.classObj c) => some c
  | _ => none

/-- Dereference an address expected to hold a callable. -/
def Heap.getFunc (h : Heap) (id : Nat) : Option FuncObj :=
  match h.deref id with
  | some (.funcObj f) => some f
  | _ => none

/-- Dereference an address expected to hold an instance. -/
def Heap.getInst (h : Heap) (id : Nat) : Option InstData :=
  match h.deref id with
  | some (.instObj i) => some i
  | _ => none

/-- `Rc::new(RefCell::new(o))`: allocate a fresh object, returning its
address (`h.length`, which is fresh). -/
def Heap.alloc (h : Heap) (o : Obj) : Heap × Nat := (h ++ [o], h.length)

/-- Overwrite the object at an address (a `RefCell` store). -/
def Heap.put (h : Heap) (id : Nat) (o : Obj) : Heap := h.set id o

/-! ## Outcomes

`Result<T, E>` extended with the two non-`Result` ways a Rust execution can
leave a function: a panic, and (an artifact of the fueled embedding) fuel
exhaustion. -/

/-- Outcome of running a piece of the interpreter. -/
inductive Res (ε : Type) (α : Type) where
  | ok (a : α) : Res ε α
  | err (e : ε) : Res ε α
  | panicked : Res ε α
  | oot : Res ε α
deriving DecidableEq

/-- `interpreter.rs` `struct InterpreterError`. -/
structure InterpErr where
  token : Option Token
  message : String
deriving DecidableEq

/-! ## Environments (`src/environment.rs`)

An `Environment` value is an `Rc<RefCell<Inner>>` handle, embedded as the
address of its frame. -/

/-- `Environment::enclose`: allocate a fresh empty frame whose enclosing
frame is `env`. -/
def envEnclose (h : Heap) (env : Nat) : Heap × Nat :=
  h.alloc (.frame ⟨some env, []⟩)

/-- `Environment::new`: allocate a fresh root frame. -/
def envNew (h : Heap) : Heap × Nat :=
  h.alloc (.frame ⟨none, []⟩)

/-- `Inner::define` (via `Environment::define`): unconditional insert.
A dangling address cannot occur in the Rust program (the handle keeps the
frame alive); the model leaves the heap unchanged in that case. -/
def envDefine (h : Heap) (env : Nat) (name : String) (v : Value) : Heap :=
  match h.getFrame env with
  | some f => h.put env (.frame { f with values := alInsert f.values name v })
  | none => h

/-- `Environment::ancestor`: walk `distance` enclosing links; the
`.unwrap()` on a missing enclosing frame is a panic (`none`). -/
def ancestor (h : Heap) (env : Nat) : Nat → Option Nat
  | 0 => some env
  | d + 1 =>
    match h.getFrame env with
    | some f =>
      match f.enclosing with
      | some parent => ancestor h parent d
      | none => none
    | none => none

/-- `Environment::get_at`: `ancestor` then `Inner::get_no_parent`.
`get_no_parent` yields the bound value, or `Nil` when the name is absent —
it never reports an error.  `none` is the `ancestor` panic. -/
def getAt (h : Heap) (env : Nat) (distance : Nat) (name : String) : Option Value :=
  match ancestor h env distance with
  | some fid =>
    match h.getFrame fid with
    | some f => some ((alGet f.values name).getD Value.nil)
    | none => none
  | none => none

/-- `Environment::assign_at`: `ancestor` then `Inner::assign_no_parent`,
which inserts the binding unconditionally and cannot fail. -/
def assignAt (h : Heap) (env : Nat) (distance : Nat) (name : Token) (v : Value) :
    Option Heap :=
  match ancestor h env distance with
  | some fid =>
    match h.getFrame fid with
    | some f => some (h.put fid (.frame { f with values := alInsert f.values name.lexeme v }))
    | none => none
  | none => none

/-- `Inner::get` (via `Environment::get`): look the name up in this frame,
else recurse into the enclosing frame; reaching the root without a hit is
the `Undefined variable 'X'.` error.  Fueled because the parent chain lives
in the heap. -/
def envGet : Nat → Heap → Nat → Token → Res InterpErr Value
  | 0, _, _, _ => .oot
  | fuel + 1, h, env, name =>
    match h.getFrame env with
    | none => .panicked
    | some f =>
      match alGet f.values name.lexeme with
      | some v => .ok v
      | none =>
        match f.enclosing with
        | some parent => envGet fuel h parent name
        | none => .err ⟨some name, "Undefined variable '" ++ name.lexeme ++ "'."⟩

/-- `Inner::assign` (via `Environment::assign`): assign in the innermost
frame that already binds the name, else the `Undefined variable 'X'.`
error. -/
def envAssign : Nat → Heap → Nat → Token → Value → Res InterpErr Heap
  | 0, _, _, _, _ => .oot
  | fuel + 1, h, env, name, v =>
    match h.getFrame env with
    | none => .panicked
    | some f =>
      if (alGet f.values name.lexeme).isSome then
        .ok (h.put env (.frame { f with values := alInsert f.values name.lexeme v }))
      else
        match f.enclosing with
        | some parent => envAssign fuel h parent name v
        | none => .err ⟨some name, "Undefined variable '" ++ name.lexeme ++ "'."⟩

/-- Modelled from the spec: `Environment::enclosing` is called at
`interpreter.rs:167` (not present in the snapshot of `environment.rs`) to
"pop back to the outer environment" after a class declaration with a
superclass (§4.4 step 6); it yields the handle of the enclosing frame. -/
def envEnclosing (h : Heap) (env : Nat) : Option Nat :=
  match h.getFrame env with
  | some f => f.enclosing
  | none => none

/-- `Class::find_function`: the method by that name, walking the
superclass chain.  Never reports an error; fueled because the chain lives
in the heap. -/
def findFunction : Nat → Heap → Nat → String → Res InterpErr (Option Nat)
  | 0, _, _, _ => .oot
  | fuel + 1, h, cid, name =>
    match h.getClass cid with
    | none => .panicked
    | some c =>
      match alGet c.methods name with
      | some fid => .ok (some fid)
      | none =>
        match c.superclass with
        | some sup => findFunction fuel h sup name
        | none => .ok none

/-! ## Interpreter state and monad (`src/interpreter.rs`) -/

/-- `struct Interpreter` plus the world it acts on: the heap, the printed
output (`println!` in the `Print` arm; the formatted value itself is
recorded, display formatting is not modelled) and the wall clock reading
that the native `clock()` returns (real time is not modelled). -/
structure InterpState where
  heap : Heap
  globals : Nat
  environment : Nat
  locals : List (Nat × Nat)
  output : List Value
  now : F64

/-- The interpreter's effect shape: state plus `Res`-valued outcome.  The
state at the moment of an error/panic/fuel outcome is carried along. -/
def M (α : Type) : Type := InterpState → Res InterpErr α × InterpState

/-- Monadic return for `M`. -/
def M.pure {α : Type} (a : α) : M α := fun s => (.ok a, s)

/-- Monadic bind for `M`: `err`, `panicked` and `oot` short-circuit (the
`?` operator, panic unwinding, fuel exhaustion). -/
def M.bind {α β : Type} (x : M α) (f : α → M β) : M β := fun s =>
  match x s with
  | (.ok a, s') => f a s'
  | (.err e, s') => (.err e, s')
  | (.panicked, s') => (.panicked, s')
  | (.oot, s') => (.oot, s')

instance : Monad M where
  pure := M.pure
  bind := M.bind

/-- Out of fuel. -/
def M.oot {α : Type} : M α := fun s => (.oot, s)

/-- A Rust panic (`unwrap` failure, `panic!`, slice out of bounds). -/
def M.panicM {α : Type} : M α := fun s => (.panicked, s)

/-- `return Err(InterpreterError { .. })`. -/
def M.throw {α : Type} (e : InterpErr) : M α := fun s => (.err e, s)

/-- Read the interpreter state. -/
def M.getS : M InterpState := fun s => (.ok s, s)

/-- Replace the interpreter state. -/
def M.setS (s' : InterpState) : M Unit := fun _ => (.ok (), s')

/-- Update the interpreter state. -/
def M.modify (f : InterpState → InterpState) : M Unit := fun s => (.ok (), f s)

/-- Lift a possibly-panicking computation. -/
def M.liftPanic {α : Type} (o : Option α) : M α := fun s =>
  match o with
  | some a => (.ok a, s)
  | none => (.panicked, s)

/-- Lift a `Res` outcome. -/
def M.liftRes {α : Type} (r : Res InterpErr α) : M α := fun s => (r, s)

/-! ## Interpreter helpers (`src/interpreter.rs`, `src/function.rs`,
`src/class.rs`) -/

/-- IEEE negation (the unary `-` operator on `f64`). -/
def F64.neg : F64 → F64
  | .nan => .nan
  | .inf p => .inf !p
  | .val q => .val (-q)

/-- `Interpreter::check_number_operand` (unary `-`). -/
def checkNumberOperand (operator : Token) (operand : Value) : M F64 :=
  match operand with
  | .number x => Pure.pure x
  | _ => M.throw ⟨some operator, "Operand must be a number."⟩

/-- `Interpreter::check_number_operands` (binary arithmetic and
comparisons).  Note the message in the source reads
`Operands must be a number.` -/
def checkNumberOperands (operator : Token) (left right : Value) : M (F64 × F64) :=
  match left, right with
  | .number x, .number y => Pure.pure (x, y)
  | _, _ => M.throw ⟨some operator, "Operands must be a number."⟩

/-- The operator dispatch of `Interpreter::evaluate`'s `Expression::Binary`
arm (`interpreter.rs:229-292`), applied after both operands have been
evaluated.  The catch-all arm is `panic!("unreachable")`. -/
def binaryOp (operator : Token) (leftChild rightChild : Value) : M Value :=
  match operator.tokenType with
  | .slash => do
      let (x, y) ← checkNumberOperands operator leftChild rightChild
      Pure.pure (Value.number (F64.div x y))
  | .star => do
      let (x, y) ← checkNumberOperands operator leftChild rightChild
      Pure.pure (Value.number (F64.mul x y))
  | .minus => do
      let (x, y) ← checkNumberOperands operator leftChild rightChild
      Pure.pure (Value.number (F64.sub x y))
  | .plus =>
      match leftChild, rightChild with
      | .number a, .number b => Pure.pure (Value.number (F64.add a b))
      | .string a, .string b => Pure.pure (Value.string (a ++ b))
      | _, _ => M.throw ⟨some operator, "Operands must be two numbers or two strings."⟩
  | .greater => do
      let (x, y) ← checkNumberOperands operator leftChild rightChild
      Pure.pure (Value.boolean (F64.blt y x))
  | .greaterEqual => do
      let (x, y) ← checkNumberOperands operator leftChild rightChild
      Pure.pure (Value.boolean (F64.ble y x))
  | .less => do
      let (x, y) ← checkNumberOperands operator leftChild rightChild
      Pure.pure (Value.boolean (F64.blt x y))
  | .lessEqual => do
      let (x, y) ← checkNumberOperands operator leftChild rightChild
      Pure.pure (Value.boolean (F64.ble x y))
  | .bangEqual => Pure.pure (Value.boolean (valueNe leftChild rightChild))
  | .equalEqual => Pure.pure (Value.boolean (valueEq leftChild rightChild))
  | _ => M.panicM

/-- `Interpreter::look_up_variable`: resolved ids read through `get_at` on
the current environment; unresolved names read the globals through
`Environment::get`. -/
def lookUpVariable (fuel : Nat) (name : Token) (expressionId : Nat) : M Value :=
  fun s =>
    match alGet s.locals expressionId with
    | some distance =>
      match getAt s.heap s.environment distance name.lexeme with
      | some v => (.ok v, s)
      | none => (.panicked, s)
    | none => (envGet fuel s.heap s.globals name, s)

/-- `LoxFunction::bind`: a copy of the function whose closure is a fresh
frame, enclosed in the original closure, defining `this` as the given
value.  The fresh frame is a real allocation. -/
def bindFunc (h : Heap) (f : FuncData) (instanceValue : Value) : Heap × FuncData :=
  let (h', e) := envEnclose h f.closure
  let h'' := envDefine h' e "this" instanceValue
  (h'', { f with closure := e })

/-- `Callable::arity`: parameter count of a user function, `0` for the
native clock.  `none` is a borrow of a dangling allocation (impossible in
the Rust program). -/
def callableArity (h : Heap) (fid : Nat) : Option Nat :=
  match h.getFunc fid with
  | some (.lox f) => some f.parameters.length
  | some .clock => some 0
  | none => none

/-- `Instance::get` (`src/class.rs`): fields shadow methods; a method found
on the class chain is returned as a freshly allocated bound method; a miss
is the `Undefined property 'X'.` error. -/
def instanceGet (fuel : Nat) (instanceId : Nat) (name : Token) : M Value :=
  fun s =>
    match s.heap.getInst instanceId with
    | none => (.panicked, s)
    | some inst =>
      match alGet inst.fields name.lexeme with
      | some v => (.ok v, s)
      | none =>
        match findFunction fuel s.heap inst.cls name.lexeme with
        | .ok (some fid) =>
          match s.heap.getFunc fid with
          | some (.lox f) =>
            let (h', bound) := bindFunc s.heap f (.inst instanceId)
            let (h'', bid) := h'.alloc (.funcObj (.lox bound))
            (.ok (.function bid), { s with heap := h'' })
          | _ => (.panicked, s)
        | .ok none => (.err ⟨some name, "Undefined property '" ++ name.lexeme ++ "'."⟩, s)
        | .err e => (.err e, s)
        | .panicked => (.panicked, s)
        | .oot => (.oot, s)

/-- `Instance::set` (`src/class.rs`): unconditional field insert. -/
def instanceSet (instanceId : Nat) (name : Token) (v : Value) : M Value :=
  fun s =>
    match s.heap.getInst instanceId with
    | none => (.panicked, s)
    | some inst =>
      let o : Obj := .instObj { inst with fields := alInsert inst.fields name.lexeme v }
      (.ok Value.nil, { s with heap := s.heap.put instanceId o })

/-- The `Expression::Super` arm of `Interpreter::evaluate`
(`interpreter.rs:434-471`).  With a resolved id: `super` is read at the
recorded distance and `this` one frame below (`distance - 1` is a `u32`
subtraction, here truncated ℕ subtraction); the two `.unwrap()`s and the
two `panic!()`s are panics.  Without a resolved id the arm yields `Nil`. -/
def superEval (fuel : Nat) (expressionId : Nat) (method : Token) : M Value :=
  fun s =>
    match alGet s.locals expressionId with
    | some distance =>
      match getAt s.heap s.environment distance "super" with
      | some (.classRef superclass) =>
        match getAt s.heap s.environment (distance - 1) "this" with
        | some (.inst instanceId) =>
          match findFunction fuel s.heap superclass method.lexeme with
          | .ok (some fid) =>
            match s.heap.getFunc fid with
            | some (.lox f) =>
              let (h', bound) := bindFunc s.heap f (.inst instanceId)
              let (h'', bid) := h'.alloc (.funcObj (.lox bound))
              (.ok (.function bid), { s with heap := h'' })
            | _ => (.panicked, s)
          | .ok none =>
            (.err ⟨some method, "Undefined property '" ++ method.lexeme ++ "'."⟩, s)
          | .err e => (.err e, s)
          | .panicked => (.panicked, s)
          | .oot => (.oot, s)
        | some _ => (.panicked, s)
        | none => (.panicked, s)
      | some _ => (.panicked, s)
      | none => (.panicked, s)
    | none => (.ok Value.nil, s)

/-- Parameter binding in `LoxFunction::call`: `zip` stops at the shorter
list. -/
def bindParams (h : Heap) (env : Nat) : List Token → List Value → Heap
  | p :: ps, v :: vs => bindParams (envDefine h env p.lexeme v) env ps vs
  | _, _ => h

/-- The method-table construction loop of the `Statement::Class` arm: each
method becomes a fresh `LoxFunction` allocation closing over the current
environment, with `is_initializer` iff the method is named `init`. -/
def loadMethods (h : Heap) (closureEnv : Nat) (methods : List FunctionData) :
    Heap × List (String × Nat) :=
  methods.foldl
    (fun acc method =>
      let f : FuncData :=
        ⟨method.name, method.parameters, method.body,
         method.name.lexeme == "init", closureEnv⟩
      let (h', fid) := acc.1.alloc (.funcObj (.lox f))
      (h', alInsert acc.2 method.name.lexeme fid))
    (h, [])

/-! ## The interpreter proper (`src/interpreter.rs`, `src/function.rs`)

One fuel unit is consumed at every (mutually) recursive call; `oot` marks
fuel exhaustion and is the only outcome an unbounded run could avoid. -/

mutual

/-- `Interpreter::evaluate`. -/
def evaluate : Nat → Expression → M Value
  | 0, _ => M.oot
  | fuel + 1, expr =>
    match expr with
    | .literal l => Pure.pure (Value.ofLiteral l)
    | .grouping child => evaluate fuel child
    | .unary operator right => do
        let rightChild ← evaluate fuel right
        match operator.tokenType with
        | .bang => Pure.pure (Value.boolean (!(isTruthy rightChild)))
        | .minus => do
            let x ← checkNumberOperand operator rightChild
            Pure.pure (Value.number (F64.neg x))
        | _ => M.panicM
    | .binary left operator right => do
        let leftChild ← evaluate fuel left
        let rightChild ← evaluate fuel right
        binaryOp operator leftChild rightChild
    | .var id name => lookUpVariable fuel name id
    | .assign id name right => do
        let v ← evaluate fuel right
        let res ← fun s =>
          match alGet s.locals id with
          | some distance =>
            match assignAt s.heap s.environment distance name v with
            | some h' => (.ok (), { s with heap := h' })
            | none => (.panicked, s)
          | none =>
            match envAssign fuel s.heap s.globals name v with
            | .ok h' => (.ok (), { s with heap := h' })
            | .err e => (.err e, s)
            | .panicked => (.panicked, s)
            | .oot => (.oot, s)
        let _ : Unit := res
        Pure.pure v
    | .logical left operator right => do
        let leftValue ← evaluate fuel left
        let isLeftTruthy := isTruthy leftValue
        match operator.tokenType with
        | .orKw => if isLeftTruthy then Pure.pure leftValue else evaluate fuel right
        | .andKw => if !isLeftTruthy then Pure.pure leftValue else evaluate fuel right
        | _ => M.panicM
    | .call callee parenthesis arguments => do
        let calleeValue ← evaluate fuel callee
        let argumentsValues ← evaluateArgs fuel arguments
        match calleeValue with
        | .function callable => do
            let arity ← fun s => (M.liftPanic (callableArity s.heap callable)) s
            if argumentsValues.length ≠ arity then
              M.throw ⟨some parenthesis,
                "Expected " ++ toString arity ++ " arguments but got " ++
                  toString argumentsValues.length ++ "."⟩
            else do
              let returnedValue ← callFunction fuel callable argumentsValues parenthesis
              Pure.pure (returnedValue.getD Value.nil)
        | .classRef cls => callClass fuel cls argumentsValues parenthesis
        | _ => M.throw ⟨some parenthesis, "Can only call functions and classes."⟩
    | .get object name => do
        let objectValue ← evaluate fuel object
        match objectValue with
        | .inst instanceId => instanceGet fuel instanceId name
        | _ => M.throw ⟨some name, "Only instances have properties."⟩
    | .set object name value => do
        let objectValue ← evaluate fuel object
        match objectValue with
        | .inst instanceId => do
            let evaluatedValue ← evaluate fuel value
            let _ ← instanceSet instanceId name evaluatedValue
            Pure.pure evaluatedValue
        | _ => M.throw ⟨some name, "Only instances have fields."⟩
    | .this id keyword => lookUpVariable fuel keyword id
    | .super id _ method => superEval fuel id method

/-- The left-to-right argument evaluation loop of the `Expression::Call`
arm. -/
def evaluateArgs : Nat → List Expression → M (List Value)
  | 0, _ => M.oot
  | _ + 1, [] => Pure.pure []
  | fuel + 1, argument :: rest => do
      let argumentValue ← evaluate fuel argument
      let restValues ← evaluateArgs fuel rest
      Pure.pure (argumentValue :: restValues)

/-- `Interpreter::execute`. -/
def execute : Nat → Statement → M (Option Value)
  | 0, _ => M.oot
  | fuel + 1, stmt =>
    match stmt with
    | .expression e => do
        let _ ← evaluate fuel e
        Pure.pure none
    | .function data => do
        M.modify fun s =>
          let f : FuncData := ⟨data.name, data.parameters, data.body, false, s.environment⟩
          let (h, fid) := s.heap.alloc (.funcObj (.lox f))
          { s with heap := envDefine h s.environment data.name.lexeme (.function fid) }
        Pure.pure none
    | .ifStmt condition thenBranch elseBranch => do
        let result ← evaluate fuel condition
        if isTruthy result then execute fuel thenBranch
        else
          match elseBranch with
          | some statement => execute fuel statement
          | none => Pure.pure none
    | .print e => do
        let v ← evaluate fuel e
        M.modify fun s => { s with output := s.output ++ [v] }
        Pure.pure none
    | .var name initializer => do
        let value ←
          match initializer with
          | some expression => evaluate fuel expression
          | none => Pure.pure Value.nil
        M.modify fun s =>
          { s with heap := envDefine s.heap s.environment name.lexeme value }
        Pure.pure none
    | .ret _ value =>
        match value with
        | some expression => do
            let v ← evaluate fuel expression
            Pure.pure (some v)
        | none => Pure.pure (some Value.nil)
    | .whileStmt condition body => whileLoop fuel condition body
    | .block statements => fun s =>
        let (h, envId) := envEnclose s.heap s.environment
        executeBlock fuel statements envId { s with heap := h }
    | .classStmt name superclass methods => do
        let superclassRc : Option Nat ←
          match superclass with
          | some superclassExpression => do
              let result ← evaluate fuel superclassExpression
              match result with
              | .classRef rc => Pure.pure (some rc)
              | _ => M.throw ⟨some name, "Superclass must be a class."⟩
          | none => Pure.pure none
        M.modify fun s =>
          { s with heap := envDefine s.heap s.environment name.lexeme Value.nil }
        (if superclass.isSome then
          match superclassRc with
          | some rc =>
            M.modify fun s =>
              let (h, e) := envEnclose s.heap s.environment
              { s with heap := envDefine h e "super" (Value.classRef rc),
                       environment := e }
          | none => M.panicM
         else Pure.pure ())
        let s0 ← M.getS
        let (h1, loaded) := loadMethods s0.heap s0.environment methods
        let (h2, cid) := Heap.alloc h1 (.classObj ⟨name.lexeme, superclassRc, loaded⟩)
        M.setS { s0 with heap := h2 }
        (if superclass.isSome then do
          let s1 ← M.getS
          match envEnclosing s1.heap s1.environment with
          | some outer => M.setS { s1 with environment := outer }
          | none => M.panicM
         else Pure.pure ())
        M.modify fun s =>
          { s with heap := envDefine s.heap s.environment name.lexeme (Value.classRef cid) }
        Pure.pure none

/-- The `loop { .. }` of the `Statement::While` arm. -/
def whileLoop : Nat → Expression → Statement → M (Option Value)
  | 0, _, _ => M.oot
  | fuel + 1, condition, body => do
      let isTrue ← evaluate fuel condition
      if !(isTruthy isTrue) then Pure.pure none
      else do
        let r ← execute fuel body
        match r with
        | some returned => Pure.pure (some returned)
        | none => whileLoop fuel condition body

/-- The statement loop of `Interpreter::execute_block`: stops at the first
error or the first `Ok(Some(value))` (a `return` unwinding). -/
def executeSeq : Nat → List Statement → M (Option Value)
  | 0, _ => M.oot
  | _ + 1, [] => Pure.pure none
  | fuel + 1, statement :: rest => do
      let r ← execute fuel statement
      match r with
      | some v => Pure.pure (some v)
      | none => executeSeq fuel rest

/-- `Interpreter::execute_block` (`interpreter.rs:180-204`): save the
current environment, run the statements in the given one, and restore the
saved environment on every `Result` path (normal completion, error, and
`return` unwinding).  A panic unwinds without restoring, as in Rust. -/
def executeBlock : Nat → List Statement → Nat → M (Option Value)
  | 0, _, _ => M.oot
  | fuel + 1, statements, environment => fun s =>
      let previous := s.environment
      match executeSeq fuel statements { s with environment := environment } with
      | (.ok r, s') => (.ok r, { s' with environment := previous })
      | (.err e, s') => (.err e, { s' with environment := previous })
      | (r, s') => (r, s')

/-- `LoxFunction::call` (`src/function.rs:59-78`): run the body in a fresh
frame enclosed in the closure, binding parameters positionally; an
initializer yields `this` read at distance 0 of the closure, whatever the
body's `Ok` outcome was. -/
def callLox : Nat → FuncData → List Value → M (Option Value)
  | 0, _, _ => M.oot
  | fuel + 1, f, arguments => fun s =>
      let (h, environment) := envEnclose s.heap f.closure
      let h' := bindParams h environment f.parameters arguments
      match executeBlock fuel f.body environment { s with heap := h' } with
      | (.ok returned, s') =>
        if f.isInitializer then
          match getAt s'.heap f.closure 0 "this" with
          | some v => (.ok (some v), s')
          | none => (.panicked, s')
        else (.ok returned, s')
      | r => r

/-- `Callable::call` dispatch on a `Value::Function` callee: a user
function runs `LoxFunction::call`; the native clock yields the wall-clock
reading (the state's `now`; real time is not modelled, and neither is the
pre-epoch `SystemTime` error). -/
def callFunction : Nat → Nat → List Value → Token → M (Option Value)
  | 0, _, _, _ => M.oot
  | fuel + 1, callable, arguments, _ => fun s =>
      match s.heap.getFunc callable with
      | none => (.panicked, s)
      | some .clock => (.ok (some (.number s.now)), s)
      | some (.lox f) => callLox fuel f arguments s

/-- The `Value::Class` arm of the `Expression::Call` case
(`interpreter.rs:368-392`): construct a fresh instance (empty field map);
if the class chain has an `init`, arity-check the call, bind `init` to the
new instance and invoke it (discarding its result); yield the instance. -/
def callClass : Nat → Nat → List Value → Token → M Value
  | 0, _, _, _ => M.oot
  | fuel + 1, cls, argumentsValues, parenthesis => fun s =>
      let (h, instanceId) := s.heap.alloc (.instObj ⟨cls, []⟩)
      let s1 : InterpState := { s with heap := h }
      match findFunction fuel s1.heap cls "init" with
      | .ok (some initializer) =>
        (match s1.heap.getFunc initializer with
         | some (.lox f) =>
           if argumentsValues.length ≠ f.parameters.length then
             (.err ⟨some parenthesis,
               "Expected " ++ toString f.parameters.length ++ " arguments but got " ++
                 toString argumentsValues.length ++ "."⟩, s1)
           else
             let (h', bound) := bindFunc s1.heap f (.inst instanceId)
             (match callLox fuel bound argumentsValues { s1 with heap := h' } with
              | (.ok _, s') => (.ok (.inst instanceId), s')
              | (.err e, s') => (.err e, s')
              | (.panicked, s') => (.panicked, s')
              | (.oot, s') => (.oot, s'))
         | _ => (.panicked, s1))
      | .ok none => (.ok (.inst instanceId), s1)
      | .err _ => (.panicked, s1)
      | .panicked => (.panicked, s1)
      | .oot => (.oot, s1)

end

/-- `Interpreter::interpret`: run top-level statements in order; a
top-level `Ok(Some(..))` is discarded and execution continues. -/
def interpret : Nat → List Statement → M (Option Value)
  | 0, _ => M.oot
  | _ + 1, [] => Pure.pure none
  | fuel + 1, statement :: rest => do
      let _ ← execute fuel statement
      interpret fuel rest

/-! ## The resolver (`src/resolver.rs`)

The scope stack is a `VecDeque` used at its back end; it is embedded as a
list whose head is the back (innermost) scope, so `push_back`/`pop_back`
are cons/tail and the recorded depth `scopes.len() - 1 - index` is the
position from the head. -/

/-- `resolver.rs` `enum FunctionType`. -/
inductive FunctionType where
  | none | function | initializer | method
deriving DecidableEq

/-- `resolver.rs` `enum ClassType`: only `None` and `Class` — there is no
`Subclass` variant in this source. -/
inductive ClassType where
  | none | cls
deriving DecidableEq

/-- `resolver.rs` `struct ResolverError`. -/
structure ResolverError where
  token : Token
  message : String
deriving DecidableEq

/-- `struct Resolver` (the borrowed interpreter is represented by the
`locals` side table that `Interpreter::resolve` writes). -/
structure RState where
  scopes : List (List (String × Bool))
  currentFunctionType : FunctionType
  currentClassType : ClassType
  locals : List (Nat × Nat)

/-- `Resolver::new`. -/
def RState.new : RState := ⟨[], .none, .none, []⟩

/-- The resolver's effect shape. -/
def RM (α : Type) : Type := RState → Res ResolverError α × RState

/-- Monadic return for `RM`. -/
def RM.pure {α : Type} (a : α) : RM α := fun st => (.ok a, st)

/-- Monadic bind for `RM`: the `?` operator. -/
def RM.bind {α β : Type} (x : RM α) (f : α → RM β) : RM β := fun st =>
  match x st with
  | (.ok a, st') => f a st'
  | (.err e, st') => (.err e, st')
  | (.panicked, st') => (.panicked, st')
  | (.oot, st') => (.oot, st')

instance : Monad RM where
  pure := RM.pure
  bind := RM.bind

/-- Out of fuel. -/
def RM.oot {α : Type} : RM α := fun st => (.oot, st)

/-- A `panic!()` in the resolver. -/
def RM.panicM {α : Type} : RM α := fun st => (.panicked, st)

/-- `return Err(ResolverError { .. })`. -/
def RM.throw {α : Type} (e : ResolverError) : RM α := fun st => (.err e, st)

/-- `Resolver::begin_scope`. -/
def beginScope : RM Unit := fun st =>
  (.ok (), { st with scopes := [] :: st.scopes })

/-- `Resolver::end_scope` (`pop_back`; popping an empty deque is a no-op). -/
def endScope : RM Unit := fun st =>
  (.ok (), { st with scopes := st.scopes.tail })

/-- `Resolver::declare`: in the innermost scope (if any), re-declaration is
the `Already a variable with this name in this scope.` error; otherwise the
name is inserted with flag `false`. -/
def declare (name : Token) : RM Unit := fun st =>
  match st.scopes with
  | [] => (.ok (), st)
  | scope :: rest =>
    if (alGet scope name.lexeme).isSome then
      (.err ⟨name, "Already a variable with this name in this scope."⟩, st)
    else (.ok (), { st with scopes := alInsert scope name.lexeme false :: rest })

/-- `Resolver::define`: set the flag to `true` in the innermost scope. -/
def define (name : Token) : RM Unit := fun st =>
  match st.scopes with
  | [] => (.ok (), st)
  | scope :: rest =>
    (.ok (), { st with scopes := alInsert scope name.lexeme true :: rest })

/-- Index (from the innermost scope) of the first scope containing the
name. -/
def findScopeDepth (name : String) : List (List (String × Bool)) → Option Nat
  | [] => none
  | scope :: rest =>
    if (alGet scope name).isSome then some 0
    else (findScopeDepth name rest).map (· + 1)

/-- `Resolver::resolve_local` (+ `Interpreter::resolve`): record the depth
of the innermost scope containing the name under the expression id; no
scope hit means the name is left for the globals. -/
def resolveLocal (expressionId : Nat) (name : Token) : RM Unit := fun st =>
  match findScopeDepth name.lexeme st.scopes with
  | some depth => (.ok (), { st with locals := alInsert st.locals expressionId depth })
  | none => (.ok (), st)

/-- The `self.scopes.back_mut().unwrap().insert(..)` lines of the class
arm (they bypass `declare`/`define`). -/
def insertBack (key : String) (b : Bool) : RM Unit := fun st =>
  match st.scopes with
  | scope :: rest => (.ok (), { st with scopes := alInsert scope key b :: rest })
  | [] => (.panicked, st)

/-- Write `self.current_class_type`. -/
def RM.setClassType (t : ClassType) : RM Unit := fun st =>
  (.ok (), { st with currentClassType := t })

/-- Write `self.current_function_type`. -/
def RM.setFunctionType (t : FunctionType) : RM Unit := fun st =>
  (.ok (), { st with currentFunctionType := t })

/-- The parameter loop of `Resolver::resolve_function`. -/
def declareParams : List Token → RM Unit
  | [] => RM.pure ()
  | parameter :: rest => do
      declare parameter
      define parameter
      declareParams rest

mutual

/-- `Resolver::resolve_expression`. -/
def resolveExpression : Nat → Expression → RM Unit
  | 0, _ => RM.oot
  | fuel + 1, expr =>
    match expr with
    | .var id name => fun st =>
      (match st.scopes with
       | scope :: _ =>
         if alGet scope name.lexeme = some false then
           (RM.throw ⟨name, "Can't read local variable in its own initializer."⟩ : RM Unit) st
         else resolveLocal id name st
       | [] => resolveLocal id name st)
    | .assign id name right => do
        resolveExpression fuel right
        resolveLocal id name
    | .binary left _ right => do
        resolveExpression fuel left
        resolveExpression fuel right
    | .call callee _ arguments => do
        resolveExpression fuel callee
        resolveExprList fuel arguments
    | .grouping expression => resolveExpression fuel expression
    | .literal _ => RM.pure ()
    | .logical left _ right => do
        resolveExpression fuel left
        resolveExpression fuel right
    | .unary _ right => resolveExpression fuel right
    | .get object _ => resolveExpression fuel object
    | .set object _ value => do
        resolveExpression fuel value
        resolveExpression fuel object
    | .this id keyword => fun st =>
        if st.currentClassType = ClassType.none then
          (RM.throw ⟨keyword, "Can't use 'this' outside of a class."⟩ : RM Unit) st
        else resolveLocal id keyword st
    | .super id keyword _ => resolveLocal id keyword

/-- The argument loop of the `Expression::Call` arm. -/
def resolveExprList : Nat → List Expression → RM Unit
  | 0, _ => RM.oot
  | _ + 1, [] => RM.pure ()
  | fuel + 1, argument :: rest => do
      resolveExpression fuel argument
      resolveExprList fuel rest

/-- `Resolver::resolve_statement`. -/
def resolveStatement : Nat → Statement → RM Unit
  | 0, _ => RM.oot
  | fuel + 1, stmt =>
    match stmt with
    | .block statements => do
        beginScope
        resolveStatements fuel statements
        endScope
    | .var name initializer => do
        declare name
        (match initializer with
         | some expression => resolveExpression fuel expression
         | none => RM.pure ())
        define name
    | .function data => do
        declare data.name
        define data.name
        resolveFunction fuel data FunctionType.function
    | .expression expression => resolveExpression fuel expression
    | .ifStmt condition thenBranch elseBranch => do
        resolveExpression fuel condition
        resolveStatement fuel thenBranch
        match elseBranch with
        | some elseBranchExpression => resolveStatement fuel elseBranchExpression
        | none => RM.pure ()
    | .print expression => resolveExpression fuel expression
    | .ret keyword value => fun st =>
        if st.currentFunctionType = FunctionType.none then
          (RM.throw ⟨keyword, "Can't return from top-level code."⟩ : RM Unit) st
        else
          (match value with
           | some expression =>
             if st.currentFunctionType = FunctionType.initializer then
               (RM.throw ⟨keyword, "Can't return a value from an initializer."⟩ : RM Unit) st
             else resolveExpression fuel expression st
           | none => (.ok (), st))
    | .whileStmt condition body => do
        resolveExpression fuel condition
        resolveStatement fuel body
    | .classStmt name superclass methods => do
        let enclosingType ← fun st => (.ok st.currentClassType, st)
        RM.setClassType ClassType.cls
        declare name
        define name
        (match superclass with
         | some superclassExpression =>
           (match superclassExpression with
            | .var _ superclassName =>
              if name.lexeme = superclassName.lexeme then
                RM.throw ⟨superclassName, "A class can't inherit from itself."⟩
              else do
                resolveExpression fuel superclassExpression
                beginScope
                insertBack "super" true
            | _ => RM.panicM)
         | none => RM.pure ())
        beginScope
        insertBack "this" true
        resolveMethods fuel methods
        endScope
        (if superclass.isSome then endScope else RM.pure ())
        RM.setClassType enclosingType
        RM.pure ()

/-- `Resolver::resolve_statements`. -/
def resolveStatements : Nat → List Statement → RM Unit
  | 0, _ => RM.oot
  | _ + 1, [] => RM.pure ()
  | fuel + 1, statement :: rest => do
      resolveStatement fuel statement
      resolveStatements fuel rest

/-- The method loop of the class arm: `init` resolves as an initializer,
other methods as methods. -/
def resolveMethods : Nat → List FunctionData → RM Unit
  | 0, _ => RM.oot
  | _ + 1, [] => RM.pure ()
  | fuel + 1, method :: rest => do
      resolveFunction fuel method
        (if method.name.lexeme = "init" then FunctionType.initializer
         else FunctionType.method)
      resolveMethods fuel rest

/-- `Resolver::resolve_function`. -/
def resolveFunction : Nat → FunctionData → FunctionType → RM Unit
  | 0, _, _ => RM.oot
  | fuel + 1, function, functionType => do
      let enclosingType ← fun st => (.ok st.currentFunctionType, st)
      RM.setFunctionType functionType
      beginScope
      declareParams function.parameters
      resolveStatements fuel function.body
      endScope
      RM.setFunctionType enclosingType

end

/-! ## The scanner (`src/scanner.rs`)

The Rust scanner walks the source by *character* index (`chars().nth`) but
slices lexemes out of it by *byte* index (`&self.source[start..current]`);
for non-ASCII sources the two disagree and the slice panics on a non
char-boundary index.  The source is embedded as a `List Char`; byte-indexed
slicing is embedded by `byteSlice`, which interprets its bounds against the
UTF-8 byte widths of the characters and yields `none` (panic) when a bound
is not a character boundary, exceeds the text, or start exceeds end —
exactly the `&str` range-index panics. -/

/-- `char::len_utf8`. -/
def utf8Len (c : Char) : Nat :=
  if c.toNat < 0x80 then 1
  else if c.toNat < 0x800 then 2
  else if c.toNat < 0x10000 then 3
  else 4

/-- `&s[a..b]` on a `str`, with `a`, `b` byte offsets. -/
def byteSlice : List Char → Nat → Nat → Option (List Char)
  | _, 0, 0 => some []
  | [], _, _ => none
  | c :: rest, 0, b =>
      if utf8Len c ≤ b then (byteSlice rest 0 (b - utf8Len c)).map (c :: ·)
      else none
  | c :: rest, a, b =>
      if utf8Len c ≤ a ∧ a ≤ b then byteSlice rest (a - utf8Len c) (b - utf8Len c)
      else none

/-- The scanner's keyword table. -/
def keywords : String → Option TokenType
  | "and" => some .andKw
  | "class" => some .classKw
  | "else" => some .elseKw
  | "false" => some .falseKw
  | "for" => some .forKw
  | "fun" => some .funKw
  | "if" => some .ifKw
  | "nil" => some .nilKw
  | "or" => some .orKw
  | "print" => some .printKw
  | "return" => some .returnKw
  | "super" => some .superKw
  | "this" => some .thisKw
  | "true" => some .trueKw
  | "var" => some .varKw
  | "while" => some .whileKw
  | _ => none

/-- `scanner.rs` `struct Scanner`.  The `source_len` field is fixed at
construction to the character count and never changes; it is represented
by `sc.source.length`.  `errors` records the `(line, message)` pairs the
scanner reports to stderr. -/
structure Scanner where
  source : List Char
  tokens : List Token
  start : Nat
  current : Nat
  line : Nat
  hadError : Bool
  errors : List (Nat × String)
deriving DecidableEq

/-- `Scanner::new`. -/
def Scanner.new (source : List Char) : Scanner :=
  ⟨source, [], 0, 0, 1, false, []⟩

/-- `Scanner::is_at_end`. -/
def isAtEnd (sc : Scanner) : Bool := sc.source.length ≤ sc.current

/-- `Scanner::advance`: consume and yield the character at `current`; the
`.unwrap()` out of bounds is a panic (`none`). -/
def advance (sc : Scanner) : Option (Char × Scanner) :=
  (sc.source.get? sc.current).map fun c => (c, { sc with current := sc.current + 1 })

/-- `Scanner::peek_at`: `'\0'` beyond the end. -/
def peekAt (sc : Scanner) (n : Nat) : Char :=
  if sc.source.length ≤ sc.current + n then Char.ofNat 0
  else (sc.source.get? (sc.current + n)).getD (Char.ofNat 0)

/-- `Scanner::peek`. -/
def peek (sc : Scanner) : Char := peekAt sc 0

/-- `Scanner::match_`. -/
def matchCh (sc : Scanner) (expected : Char) : Bool × Scanner :=
  if isAtEnd sc then (false, sc)
  else
    match sc.source.get? sc.current with
    | some c =>
      if c ≠ expected then (false, sc)
      else (true, { sc with current := sc.current + 1 })
    | none => (false, sc)

/-- `Scanner::text`: `&self.source[self.start..self.current]` — character
counts used as byte offsets, exactly as in the source. -/
def text (sc : Scanner) : Option (List Char) :=
  byteSlice sc.source sc.start sc.current

/-- `Scanner::add_token` (the lexeme is `text()`). -/
def addToken (sc : Scanner) (tokenType : TokenType) : Option Scanner :=
  (text sc).map fun t =>
    { sc with tokens := sc.tokens ++ [⟨tokenType, String.mk t, sc.line⟩] }

/-- `Scanner::report` (via `Scanner::error`, which always passes an empty
`where`): record the diagnostic and set `had_error`. -/
def report (sc : Scanner) (line : Nat) (message : String) : Scanner :=
  { sc with errors := sc.errors ++ [(line, message)], hadError := true }

/-- Model of `char::is_numeric`, exact on ASCII.  (Rust's Unicode numeric
characters outside ASCII would enter the number path and then panic inside
`parse().unwrap()`; no theorem below runs the scanner over non-ASCII
characters through this function.) -/
def isNumberCh (c : Char) : Bool := c.isDigit

/-- Model of `Scanner::is_alpha` (`char::is_alphabetic` or `'_'`), exact on
ASCII; same caveat as `isNumberCh`. -/
def isAlphaCh (c : Char) : Bool := c.isAlpha || c = '_'

/-- `Scanner::is_alpha_or_number`. -/
def isAlphaOrNumberCh (c : Char) : Bool := isAlphaCh c || isNumberCh c

/-- The body loop of `Scanner::string`: consume until the closing quote or
the end of input, bumping the line counter at newlines.  (The `none` arm of
`advance` is unreachable: the guard has just checked `¬ is_at_end`.) -/
def stringLoop (sc : Scanner) : Scanner :=
  if h : peek sc ≠ '"' ∧ ¬ isAtEnd sc then
    match h2 : advance (if peek sc = '\n' then { sc with line := sc.line + 1 } else sc) with
    | some (_, sc2) => stringLoop sc2
    | none => sc
  else sc
termination_by sc.source.length - sc.current
decreasing_by
  split at h2 <;>
  · simp only [advance, Option.map_eq_some'] at h2
    obtain ⟨c, hget, heq⟩ := h2
    injection heq with heq1 heq2
    subst heq2
    have hlt : sc.current < sc.source.length := by
      have := List.get?_eq_some.mp hget
      simpa using this.1
    simp
    omega

/-- The digit loop(s) of `Scanner::number`. -/
def numberLoop (sc : Scanner) : Scanner :=
  if h : isNumberCh (peek sc) then
    match h2 : advance sc with
    | some (_, sc2) => numberLoop sc2
    | none => sc
  else sc
termination_by sc.source.length - sc.current
decreasing_by
  simp only [advance, Option.map_eq_some'] at h2
  obtain ⟨c, hget, heq⟩ := h2
  injection heq with heq1 heq2
  subst heq2
  have hlt : sc.current < sc.source.length := by
    have := List.get?_eq_some.mp hget
    simpa using this.1
  simp
  omega

/-- The loop of `Scanner::identifier`. -/
def identLoop (sc : Scanner) : Scanner :=
  if h : isAlphaOrNumberCh (peek sc) then
    match h2 : advance sc with
    | some (_, sc2) => identLoop sc2
    | none => sc
  else sc
termination_by sc.source.length - sc.current
decreasing_by
  simp only [advance, Option.map_eq_some'] at h2
  obtain ⟨c, hget, heq⟩ := h2
  injection heq with heq1 heq2
  subst heq2
  have hlt : sc.current < sc.source.length := by
    have := List.get?_eq_some.mp hget
    simpa using this.1
  simp
  omega

/-- `Scanner::advance_next_line`: skip a `//` comment to the end of the
line. -/
def advanceNextLine (sc : Scanner) : Scanner :=
  if h : peek sc ≠ '\n' ∧ ¬ isAtEnd sc then
    match h2 : advance sc with
    | some (_, sc2) => advanceNextLine sc2
    | none => sc
  else sc
termination_by sc.source.length - sc.current
decreasing_by
  simp only [advance, Option.map_eq_some'] at h2
  obtain ⟨c, hget, heq⟩ := h2
  injection heq with heq1 heq2
  subst heq2
  have hlt : sc.current < sc.source.length := by
    have := List.get?_eq_some.mp hget
    simpa using this.1
  simp
  omega

/-- Numeric value of a digit string. -/
def digitsVal (l : List Char) : ℚ :=
  l.foldl (fun acc c => acc * 10 + ((c.toNat - '0'.toNat : Nat) : ℚ)) 0

/-- Model of `str::parse::<f64>()` on the texts the number path produces:
`[0-9]+` optionally followed by `.` and `[0-9]+` parses to its exact
rational value (IEEE rounding is not modelled; no theorem depends on the
numeric value); anything else fails, making the `.unwrap()` panic. -/
def parseF64 (t : List Char) : Option F64 :=
  let intPart := t.takeWhile Char.isDigit
  let rest := t.drop intPart.length
  if intPart.isEmpty then none
  else
    match rest with
    | [] => some (.val (digitsVal intPart))
    | '.' :: frac =>
      if frac.isEmpty || !(frac.all Char.isDigit) then none
      else some (.val (digitsVal intPart + digitsVal frac / (10 : ℚ) ^ frac.length))
    | _ => none

/-- `Scanner::string` (`scanner.rs:151-170`): scan to the closing quote;
at end-of-input report `Unterminated string.` at the current line and
produce no token; otherwise consume the quote and emit a `StringLiteral`
token whose literal strips the quotes (`&self.source[start+1..current-1]`,
again byte-indexed). -/
def stringFn (sc : Scanner) : Option Scanner :=
  let sc1 := stringLoop sc
  if isAtEnd sc1 then some (report sc1 sc1.line "Unterminated string.")
  else
    match advance sc1 with
    | none => none
    | some (_, sc2) =>
      match byteSlice sc2.source (sc2.start + 1) (sc2.current - 1) with
      | none => none
      | some value => addToken sc2 (.stringLiteral (String.mk value))

/-- `Scanner::number` (`scanner.rs:172-188`). -/
def numberFn (sc : Scanner) : Option Scanner :=
  let sc1 := numberLoop sc
  let sc2 :=
    if peek sc1 = '.' && isNumberCh (peekAt sc1 1) then
      match advance sc1 with
      | some (_, scDot) => numberLoop scDot
      | none => sc1
    else sc1
  match text sc2 with
  | none => none
  | some t =>
    match parseF64 t with
    | none => none
    | some value => addToken sc2 (.number value)

/-- `Scanner::identifier`. -/
def identifierFn (sc : Scanner) : Option Scanner :=
  let sc1 := identLoop sc
  match text sc1 with
  | none => none
  | some t => addToken sc1 ((keywords (String.mk t)).getD .identifier)

/-- `Scanner::scan_token`: dispatch on the consumed character, in source
order. -/
def scanToken (sc : Scanner) : Option Scanner :=
  match advance sc with
  | none => none
  | some (character, sc) =>
    if character = '(' then addToken sc .leftParen
    else if character = ')' then addToken sc .rightParen
    else if character = '\x7b' then addToken sc .leftBrace
    else if character = '\x7d' then addToken sc .rightBrace
    else if character = ',' then addToken sc .comma
    else if character = '.' then addToken sc .dot
    else if character = '-' then addToken sc .minus
    else if character = '+' then addToken sc .plus
    else if character = ';' then addToken sc .semicolon
    else if character = '*' then addToken sc .star
    else if character = '=' then
      (let p := matchCh sc '='
       if p.1 then addToken p.2 .equalEqual else addToken p.2 .equal)
    else if character = '!' then
      (let p := matchCh sc '='
       if p.1 then addToken p.2 .bangEqual else addToken p.2 .bang)
    else if character = '<' then
      (let p := matchCh sc '='
       if p.1 then addToken p.2 .lessEqual else addToken p.2 .less)
    else if character = '>' then
      (let p := matchCh sc '='
       if p.1 then addToken p.2 .greaterEqual else addToken p.2 .greater)
    else if character = '/' then
      (let p := matchCh sc '/'
       if p.1 then some (advanceNextLine p.2) else addToken p.2 .slash)
    else if character = ' ' ∨ character = '\r' ∨ character = '\t' then some sc
    else if character = '\n' then some { sc with line := sc.line + 1 }
    else if character = '"' then stringFn sc
    else if isNumberCh character then numberFn sc
    else if isAlphaOrNumberCh character then identifierFn sc
    else some (report sc sc.line ("Unexpected character: " ++ String.mk [character]))

/-- Outcome of a scanner run: finished, panicked, or out of fuel. -/
inductive ScanOut where
  | done (sc : Scanner) : ScanOut
  | panicked : ScanOut
  | oot : ScanOut
deriving DecidableEq

/-- The `while !self.is_at_end()` loop of `Scanner::scan_tokens`
(`start` is reset to `current` before each `scan_token`). -/
def scanLoop : Nat → Scanner → ScanOut
  | 0, _ => .oot
  | fuel + 1, sc =>
    if ¬ isAtEnd sc then
      match scanToken { sc with start := sc.current } with
      | none => .panicked
      | some sc' => scanLoop fuel sc'
    else .done sc

/-- `Scanner::scan_tokens` (`scanner.rs:56-66`): run the loop, then append
the EOF token (lexeme `""`, at the last observed line). -/
def scanTokens (fuel : Nat) (sc : Scanner) : ScanOut :=
  match scanLoop fuel sc with
  | .done sc' => .done { sc' with tokens := sc'.tokens ++ [⟨.eof, "", sc'.line⟩] }
  | r => r

/-! # Theorems -/

/-! ## Claim C2 — equality of runtime values -/

/-- `==` is symmetric for any lawful `BEq`. -/
theorem beqComm {α : Type} [BEq α] [LawfulBEq α] (a b : α) : (a == b) = (b == a) := by
  by_cases h : a = b
  · subst h; rfl
  · rw [beq_eq_false_iff_ne.mpr h, beq_eq_false_iff_ne.mpr (Ne.symm h)]

/-- Symmetry of the IEEE `f64` equality. -/
theorem F64.beq_symm (a b : F64) : F64.beq a b = F64.beq b a := by
  cases a <;> cases b <;> simp only [F64.beq] <;> simp [eq_comm]

/-- Claim C2, counterexample: equality is not reflexive on the code's
`Value`.  The NaN number (a value `0.0 / 0.0` produces) does not compare
equal to itself, because `Value` equality uses IEEE `f64` equality; and an
instance never compares equal to itself either, because the `PartialEq`
impl has no `(Instance, Instance)` arm (only the stray
`(Instance, Function)` arm), so the catch-all returns `false`. -/
theorem c2_counterexample :
    valueEq (Value.number F64.nan) (Value.number F64.nan) = false
    ∧ valueEq (Value.inst 0) (Value.inst 0) = false :=
  ⟨rfl, rfl⟩

/-- Claim C2 (amended): for any two values exactly one of `a == b`, `a != b`
holds; equality is reflexive for every value except NaN numbers and except
instances (the source's `PartialEq` has no `(Instance, Instance)` arm, so
an instance equals nothing, itself included); and — for values whose
instance/function allocations are distinct, as the Rust allocator
guarantees for live objects — equality is symmetric and mixed-variant
comparisons are false. -/
theorem c2_equality_properties :
    (∀ a b : Value, (valueEq a b || valueNe a b) = true
        ∧ (valueEq a b && valueNe a b) = false)
    ∧ (∀ a : Value, a.isNaN = false → a.isInst = false → valueEq a a = true)
    ∧ (∀ a b : Value, sepAlloc a b → valueEq a b = valueEq b a)
    ∧ (∀ a b : Value, sepAlloc a b → a.variantIdx ≠ b.variantIdx →
        valueEq a b = false) := by
  refine ⟨fun a b => ?_, fun a h hi => ?_, fun a b h => ?_, fun a b h hv => ?_⟩
  · simp [valueNe]
  · cases a with
    | number n =>
      cases n with
      | nan => simp [Value.isNaN] at h
      | inf p => simp [valueEq, F64.beq]
      | val q => simp [valueEq, F64.beq]
    | nil => rfl
    | boolean b => simp [valueEq]
    | string s => simp [valueEq]
    | function i => simp [valueEq]
    | classRef i => simp [valueEq]
    | inst i => simp [Value.isInst] at hi
  · cases a <;> cases b <;> simp only [valueEq] <;>
      first
        | rfl
        | (exact F64.beq_symm ..)
        | (exact beqComm ..)
        | (simp only [beq_eq_false_iff_ne]; exact h)
        | (symm; simp only [beq_eq_false_iff_ne]; exact Ne.symm h)
  · cases a <;> cases b <;>
      first
        | rfl
        | (simp only [valueEq, beq_eq_false_iff_ne]; exact h)
        | (simp [Value.variantIdx] at hv)

/-- Claim C2, witness: the amended properties at concrete values. -/
theorem c2_witness :
    ((valueEq (Value.boolean true) (Value.nil)
        || valueNe (Value.boolean true) (Value.nil)) = true)
    ∧ valueEq (Value.number (F64.val 1)) (Value.number (F64.val 1)) = true
    ∧ valueEq (Value.inst 0) (Value.function 1)
        = valueEq (Value.function 1) (Value.inst 0)
    ∧ valueEq (Value.string "a") (Value.number (F64.val 1)) = false :=
  ⟨(c2_equality_properties.1 (Value.boolean true) Value.nil).1,
   c2_equality_properties.2.1 (Value.number (F64.val 1)) (by decide) (by decide),
   c2_equality_properties.2.2.1 (Value.inst 0) (Value.function 1)
     (show (0 : Nat) ≠ 1 by omega),
   c2_equality_properties.2.2.2 (Value.string "a") (Value.number (F64.val 1))
     (by trivial) (by decide)⟩

/-! ## Claim C4 — numeric binary operators -/

/-- Claim C4, counterexample: a `-` with a non-number operand fails with
the message `Operands must be a number.`, not `Operands must be numbers.`
as claimed. -/
theorem c4_counterexample :
    binaryOp ⟨.minus, "-", 1⟩ Value.nil Value.nil ⟨[], 0, 0, [], [], F64.val 0⟩
      = (.err ⟨some ⟨.minus, "-", 1⟩, "Operands must be a number."⟩,
         ⟨[], 0, 0, [], [], F64.val 0⟩)
    ∧ "Operands must be a number." ≠ "Operands must be numbers." := by
  exact ⟨rfl, by decide⟩

/-- Claim C4 (amended): for the operators `-`, `*`, `/`, `<`, `<=`, `>`,
`>=`, if at least one evaluated operand is not a number the evaluation
fails with a runtime error whose message is exactly
`Operands must be a number.` (and the state is unchanged); if both operands
are numbers, no error occurs. -/
theorem c4_numeric_binary_ops (op : TokenType) (operator : Token)
    (l r : Value) (s : InterpState)
    (hop : op = TokenType.minus ∨ op = TokenType.star ∨ op = TokenType.slash
      ∨ op = TokenType.less ∨ op = TokenType.lessEqual
      ∨ op = TokenType.greater ∨ op = TokenType.greaterEqual)
    (hty : operator.tokenType = op) :
    ((l.isNumber && r.isNumber) = false →
        binaryOp operator l r s
          = (.err ⟨some operator, "Operands must be a number."⟩, s))
    ∧ ((l.isNumber && r.isNumber) = true →
        ∃ v, binaryOp operator l r s = (.ok v, s)) := by
  rcases hop with h | h | h | h | h | h | h <;> subst h <;>
    constructor <;> intro hnum <;> cases l <;> cases r <;>
    simp_all [binaryOp, checkNumberOperands, Value.isNumber,
      Bind.bind, M.bind, Pure.pure, M.pure, M.throw]

/-- Claim C4, witness: the amended statement at concrete inputs. -/
theorem c4_witness :
    (binaryOp ⟨.star, "*", 1⟩ (Value.string "x") (Value.number (F64.val 2))
        ⟨[], 0, 0, [], [], F64.val 0⟩
      = (.err ⟨some ⟨.star, "*", 1⟩, "Operands must be a number."⟩,
         ⟨[], 0, 0, [], [], F64.val 0⟩))
    ∧ ∃ v, binaryOp ⟨.less, "<", 1⟩ (Value.number (F64.val 1))
        (Value.number (F64.val 2)) ⟨[], 0, 0, [], [], F64.val 0⟩
      = (.ok v, ⟨[], 0, 0, [], [], F64.val 0⟩) :=
  ⟨(c4_numeric_binary_ops TokenType.star ⟨.star, "*", 1⟩ (Value.string "x")
      (Value.number (F64.val 2)) ⟨[], 0, 0, [], [], F64.val 0⟩
      (Or.inr (Or.inl rfl)) rfl).1 (by decide),
   (c4_numeric_binary_ops TokenType.less ⟨.less, "<", 1⟩
      (Value.number (F64.val 1)) (Value.number (F64.val 2))
      ⟨[], 0, 0, [], [], F64.val 0⟩
      (Or.inr (Or.inr (Or.inr (Or.inl rfl)))) rfl).2 (by decide)⟩

/-! ## Claim C1 — the resolver and `super` -/

/-- Claim C1, counterexample: the resolver accepts `super` outside of any
class (here, at top level) and inside a class with no superclass — both
programs resolve with `Ok`, no static error is reported, so resolution
does not fail before interpretation. -/
theorem c1_counterexample :
    (resolveStatements 10
        [Statement.print (Expression.super 1 ⟨.superKw, "super", 1⟩
            ⟨.identifier, "foo", 1⟩)]
        RState.new).1 = .ok ()
    ∧ (resolveStatements 10
        [Statement.classStmt ⟨.identifier, "A", 1⟩ none
          [FunctionData.mk ⟨.identifier, "m", 1⟩ []
            [Statement.print (Expression.super 7 ⟨.superKw, "super", 1⟩
                ⟨.identifier, "foo", 1⟩)]]]
        RState.new).1 = .ok () := by
  exact ⟨rfl, rfl⟩

/-- Claim C1 (amended): the resolver performs no static check on `super`
at all — its `Expression::Super` arm merely records the keyword's scope
depth exactly like a variable (`resolve_local`) and always succeeds, in
every resolver state (in particular outside any class, where
`current_class_type` is `None`, and inside a class without a superclass,
where no scope binds `super`). -/
theorem c1_super_resolution_never_errors (fuel id : Nat)
    (keyword method : Token) (st : RState) :
    resolveExpression (fuel + 1) (Expression.super id keyword method) st
      = resolveLocal id keyword st
    ∧ (resolveExpression (fuel + 1) (Expression.super id keyword method) st).1
      = .ok () := by
  have h : resolveExpression (fuel + 1) (Expression.super id keyword method) st
      = resolveLocal id keyword st := rfl
  refine ⟨h, ?_⟩
  rw [h]
  unfold resolveLocal
  cases hfd : findScopeDepth keyword.lexeme st.scopes <;> simp [hfd]

/-! ## Claim C6 — `execute_block` restores the environment -/

/-- Claim C6: on every `Result` exit path of `execute_block` — normal
completion (`Ok None`), `return` unwinding (`Ok (Some v)`), and a
propagated runtime error (`Err`) — the interpreter's current environment
after the call is the one from before the call. -/
theorem c6_execute_block_restores_environment (fuel : Nat)
    (statements : List Statement) (environment : Nat) (s s' : InterpState)
    (r : Res InterpErr (Option Value))
    (hrun : executeBlock fuel statements environment s = (r, s'))
    (hres : (∃ v, r = .ok v) ∨ (∃ e, r = .err e)) :
    s'.environment = s.environment := by
  cases fuel with
  | zero =>
    simp only [executeBlock, M.oot] at hrun
    cases hrun
    rcases hres with ⟨v, hv⟩ | ⟨e, he⟩ <;> simp_all
  | succ n =>
    simp only [executeBlock] at hrun
    cases hseq : executeSeq n statements { s with environment := environment } with
    | mk r1 s1 =>
      rw [hseq] at hrun
      cases r1 with
      | ok v1 =>
        simp only [Prod.mk.injEq] at hrun
        obtain ⟨-, hs⟩ := hrun
        subst hs
        rfl
      | err e1 =>
        simp only [Prod.mk.injEq] at hrun
        obtain ⟨-, hs⟩ := hrun
        subst hs
        rfl
      | panicked =>
        simp only [Prod.mk.injEq] at hrun
        obtain ⟨hr, -⟩ := hrun
        rcases hres with ⟨v, hv⟩ | ⟨e, he⟩ <;> simp_all
      | oot =>
        simp only [Prod.mk.injEq] at hrun
        obtain ⟨hr, -⟩ := hrun
        rcases hres with ⟨v, hv⟩ | ⟨e, he⟩ <;> simp_all

/-- Claim C6, witness: a concrete block execution, run in a fresh
environment, leaves the current environment as it was. -/
theorem c6_witness :
    ((executeBlock 2 [] 3
        ⟨[Obj.frame ⟨none, []⟩], 0, 0, [], [], F64.val 0⟩).2).environment
      = 0 :=
  c6_execute_block_restores_environment 2 [] 3
    ⟨[Obj.frame ⟨none, []⟩], 0, 0, [], [], F64.val 0⟩
    (executeBlock 2 [] 3 ⟨[Obj.frame ⟨none, []⟩], 0, 0, [], [], F64.val 0⟩).2
    (.ok none) rfl (Or.inl ⟨none, rfl⟩)

/-! ## Claim C5 — initializer calls yield the bound instance -/

/-- Claim C5: (1) whenever a call of a function whose `is_initializer` flag
is set completes with `Ok` — the body ran to completion or executed a bare
`return;` — the call yields the value bound to `this` at depth 0 of the
function's closure; (2) whenever calling a class completes with `Ok` (in
particular when its `init` executed a bare `return;`), the result is the
newly constructed instance (the fresh allocation made at the start of the
call). -/
theorem c5_initializer_call_yields_this :
    (∀ fuel (f : FuncData) args s s' r, f.isInitializer = true →
        callLox (fuel + 1) f args s = (.ok r, s') →
        ∃ v, getAt s'.heap f.closure 0 "this" = some v ∧ r = some v)
    ∧ (∀ fuel cls args paren s s' v,
        callClass (fuel + 1) cls args paren s = (.ok v, s') →
        v = Value.inst s.heap.length) := by
  constructor
  · intro fuel f args s s' r hinit hrun
    simp only [callLox] at hrun
    split at hrun
    · rw [if_pos hinit] at hrun
      split at hrun
      · rename_i s1 returned heq v hget
        simp only [Prod.mk.injEq, Res.ok.injEq] at hrun
        obtain ⟨hr, hs⟩ := hrun
        subst hs
        exact ⟨v, hget, hr.symm⟩
      · simp at hrun
    · rename_i hne
      exact absurd hrun (hne r s')
  · intro fuel cls args paren s s' v hrun
    simp only [callClass] at hrun
    split at hrun
    · -- `find_function` yielded `Some(init)`
      split at hrun
      · -- the initializer is a user function
        split at hrun
        · -- arity mismatch: the call errored, contradiction
          simp at hrun
        · -- bind and invoke the initializer
          split at hrun <;> simp_all [Heap.alloc]
      · -- borrow of a non-`LoxFunction`: panicked, contradiction
        simp at hrun
    · -- no `init`: the fresh instance is returned directly
      simp_all [Heap.alloc]
    · simp at hrun
    · simp at hrun
    · simp at hrun

/-- Claim C5, witness: a concrete initializer whose body is a bare
`return;` yields the value bound to `this` in its closure, and a concrete
class call yields the fresh instance. -/
theorem c5_witness :
    (∃ v, getAt ((callLox 5 ⟨⟨.identifier, "m", 1⟩, [],
          [Statement.ret ⟨.returnKw, "return", 1⟩ none], true, 0⟩ []
          ⟨[.frame ⟨none, [("this", Value.string "me")]⟩], 0, 0, [], [],
            F64.val 0⟩).2).heap 0 0 "this" = some v
        ∧ some (Value.string "me") = some v)
    ∧ Value.inst 2 = Value.inst
        (InterpState.heap ⟨[.frame ⟨none, []⟩, .classObj ⟨"C", none, []⟩],
          0, 0, [], [], F64.val 0⟩).length :=
  ⟨c5_initializer_call_yields_this.1 4
      ⟨⟨.identifier, "m", 1⟩, [], [Statement.ret ⟨.returnKw, "return", 1⟩ none],
        true, 0⟩ []
      ⟨[.frame ⟨none, [("this", Value.string "me")]⟩], 0, 0, [], [], F64.val 0⟩
      _ (some (Value.string "me")) rfl rfl,
   c5_initializer_call_yields_this.2 4 1 [] ⟨.rightParen, ")", 1⟩
      ⟨[.frame ⟨none, []⟩, .classObj ⟨"C", none, []⟩], 0, 0, [], [], F64.val 0⟩
      _ (Value.inst 2) rfl⟩

/-! ## Claim C9 — resolved lookups never report `Undefined variable` -/

/-- A dereference that succeeds is in bounds. -/
theorem Heap.deref_lt {h : Heap} {id : Nat} {o : Obj} (hd : h.deref id = some o) :
    id < h.length := by
  by_contra hge
  rw [Heap.deref, List.get?_eq_none.mpr (Nat.le_of_not_lt hge)] at hd
  exact Option.noConfusion hd

/-- Writing an address and reading it back. -/
theorem Heap.deref_put_self (h : Heap) (id : Nat) (o : Obj)
    (hlt : id < h.length) : (h.put id o).deref id = some o := by
  rw [Heap.put, Heap.deref]
  exact List.get?_set_eq_of_lt o hlt

/-- `Class::find_function` never reports an error. -/
theorem findFunction_ne_err (fuel : Nat) (h : Heap) (cid : Nat) (name : String) :
    ∀ e, findFunction fuel h cid name ≠ .err e := by
  induction fuel generalizing cid with
  | zero => intro e; simp [findFunction]
  | succ n ih =>
    intro e
    simp only [findFunction]
    split
    · simp
    · split
      · simp
      · split
        · exact ih _ e
        · simp

/-- Claim C9: for a `Variable`/`This`/`Super` expression whose id is in the
`locals` side table, evaluation can never produce an `Undefined variable`
runtime error: (1) `look_up_variable` on the resolved path leaves the state
unchanged and yields a value or panics — it never reports an error of any
kind; (2) `get_at` yields `nil` when the name is absent at the resolved
depth; (3) `assign_at` inserts the binding unconditionally; (4) the `Super`
arm with a resolved id yields a value, panics, runs out of fuel, or reports
`Undefined property` — never `Undefined variable`. -/
theorem c9_resolved_lookup_never_undefined :
    (∀ fuel (name : Token) id (s : InterpState) d,
        alGet s.locals id = some d →
        (lookUpVariable fuel name id s).2 = s
        ∧ ((∃ v, (lookUpVariable fuel name id s).1 = .ok v)
            ∨ (lookUpVariable fuel name id s).1 = .panicked))
    ∧ (∀ (h : Heap) env d name fid f, ancestor h env d = some fid →
        h.getFrame fid = some f → alGet f.values name = none →
        getAt h env d name = some Value.nil)
    ∧ (∀ (h : Heap) env d (name : Token) v fid f, ancestor h env d = some fid →
        h.getFrame fid = some f →
        ∃ h', assignAt h env d name v = some h'
          ∧ ∃ f', h'.getFrame fid = some f'
            ∧ alGet f'.values name.lexeme = some v)
    ∧ (∀ fuel id (method : Token) (s : InterpState) d r s',
        alGet s.locals id = some d →
        superEval fuel id method s = (r, s') →
        (∃ v, r = .ok v) ∨ r = .panicked ∨ r = .oot
          ∨ r = .err ⟨some method,
              "Undefined property '" ++ method.lexeme ++ "'."⟩) := by
  refine ⟨?_, ?_, ?_, ?_⟩
  · intro fuel name id s d hd
    simp only [lookUpVariable, hd]
    cases hget : getAt s.heap s.environment d name.lexeme with
    | some v => exact ⟨rfl, Or.inl ⟨v, rfl⟩⟩
    | none => exact ⟨rfl, Or.inr rfl⟩
  · intro h env d name fid f ha hf hnone
    simp [getAt, ha, hf, hnone]
  · intro h env d name v fid f ha hf
    have hlt : fid < h.length := by
      apply Heap.deref_lt (o := .frame f)
      simp only [Heap.getFrame] at hf
      split at hf
      · rename_i o heq
        cases hf
        exact heq
      · exact Option.noConfusion hf
    refine ⟨h.put fid (.frame { f with values := alInsert f.values name.lexeme v }),
      ?_, ?_⟩
    · simp [assignAt, ha, hf]
    · refine ⟨{ f with values := alInsert f.values name.lexeme v }, ?_, ?_⟩
      · rw [Heap.getFrame, Heap.deref_put_self h fid _ hlt]
      · simp [alGet, alInsert]
  · intro fuel id method s d r s' hd hrun
    simp only [superEval, hd] at hrun
    split at hrun <;> try (cases hrun; exact Or.inr (Or.inl rfl))
    split at hrun <;> try (cases hrun; exact Or.inr (Or.inl rfl))
    split at hrun
    · split at hrun
      · cases hrun; exact Or.inl ⟨_, rfl⟩
      · cases hrun; exact Or.inr (Or.inl rfl)
    · cases hrun; exact Or.inr (Or.inr (Or.inr rfl))
    · rename_i e heq
      exact absurd heq (findFunction_ne_err _ _ _ _ e)
    · cases hrun; exact Or.inr (Or.inl rfl)
    · cases hrun; exact Or.inr (Or.inr (Or.inl rfl))

/-- Claim C9, witness: the four parts at concrete inputs — a resolved
lookup of an absent name, `get_at`/`assign_at` on a concrete frame, and a
resolved `super` expression. -/
theorem c9_witness :
    ((lookUpVariable 3 ⟨.identifier, "x", 1⟩ 5
        ⟨[.frame ⟨none, []⟩], 0, 0, [(5, 0)], [], F64.val 0⟩).2
      = ⟨[.frame ⟨none, []⟩], 0, 0, [(5, 0)], [], F64.val 0⟩)
    ∧ getAt [.frame ⟨none, []⟩] 0 0 "y" = some Value.nil
    ∧ (∃ h', assignAt [.frame ⟨none, []⟩] 0 0 ⟨.identifier, "y", 1⟩
          (Value.number (F64.val 7)) = some h'
        ∧ ∃ f', Heap.getFrame h' 0 = some f'
          ∧ alGet f'.values "y" = some (Value.number (F64.val 7)))
    ∧ ((∃ v, (Res.ok Value.nil : Res InterpErr Value) = .ok v)
        ∨ (Res.ok Value.nil : Res InterpErr Value) = .panicked
        ∨ (Res.ok Value.nil : Res InterpErr Value) = .oot
        ∨ (Res.ok Value.nil : Res InterpErr Value)
            = .err ⟨some ⟨.identifier, "foo", 1⟩, "Undefined property 'foo'."⟩) := by
  refine ⟨(c9_resolved_lookup_never_undefined.1 3 ⟨.identifier, "x", 1⟩ 5
      ⟨[.frame ⟨none, []⟩], 0, 0, [(5, 0)], [], F64.val 0⟩ 0 rfl).1,
    c9_resolved_lookup_never_undefined.2.1 [.frame ⟨none, []⟩] 0 0 "y" 0
      ⟨none, []⟩ rfl rfl rfl,
    c9_resolved_lookup_never_undefined.2.2.1 [.frame ⟨none, []⟩] 0 0
      ⟨.identifier, "y", 1⟩ (Value.number (F64.val 7)) 0 ⟨none, []⟩ rfl rfl,
    ?_⟩
  have := c9_resolved_lookup_never_undefined.2.2.2 3 9 ⟨.identifier, "foo", 1⟩
    ⟨[.frame ⟨none, [("super", Value.classRef 1), ("this", Value.inst 2)]⟩,
       .classObj ⟨"A", none, [("foo", 3)]⟩, .instObj ⟨1, []⟩,
       .funcObj (.lox ⟨⟨.identifier, "foo", 1⟩, [], [], false, 0⟩)],
      0, 0, [(9, 0)], [], F64.val 0⟩ 0 _ _ rfl rfl
  simpa using this

/-! ## Scanner lemmas (towards claims C3 and C7) -/

/-- Characterize a successful `advance`. -/
theorem advance_eq_some {sc : Scanner} {c : Char} {sc' : Scanner}
    (h : advance sc = some (c, sc')) :
    sc.source.get? sc.current = some c
    ∧ sc' = { sc with current := sc.current + 1 } := by
  simp only [advance, Option.map_eq_some'] at h
  obtain ⟨a, ha, heq⟩ := h
  injection heq with h1 h2
  subst h1
  subst h2
  exact ⟨ha, rfl⟩

/-- A successful indexed read is in bounds. -/
theorem get?_lt {α : Type} {l : List α} {i : Nat} {a : α}
    (h : l.get? i = some a) : i < l.length := (List.get?_eq_some.mp h).1

/-- In bounds, `peek` is the character at `current`. -/
theorem peek_of_get {sc : Scanner} {c : Char}
    (hlt : sc.current < sc.source.length)
    (hget : sc.source.get? sc.current = some c) : peek sc = c := by
  rw [List.get?_eq_getElem?] at hget
  simp [peek, peekAt, Nat.not_le.mpr hlt, hget]

/-- Beyond the end, `peek` is `'\0'`. -/
theorem peek_nul {sc : Scanner} (hge : sc.source.length ≤ sc.current) :
    peek sc = Char.ofNat 0 := by
  simp only [peek, peekAt]
  rw [if_pos (by omega)]

/-- Specification of the digit loop: it advances over in-bound digits and
stops at the first non-digit (or the end). -/
theorem numberLoop_spec : ∀ (sc : Scanner), sc.current ≤ sc.source.length →
    ∃ n, numberLoop sc = { sc with current := sc.current + n }
      ∧ sc.current + n ≤ sc.source.length
      ∧ isNumberCh (peek { sc with current := sc.current + n }) = false
      ∧ (∀ i, sc.current ≤ i → i < sc.current + n →
          ∃ c, sc.source.get? i = some c ∧ isNumberCh c = true) := by
  intro sc
  induction sc using numberLoop.induct with
  | case1 x hg c sc2 hadv ih =>
    intro hle
    obtain ⟨hget, hsc2⟩ := advance_eq_some hadv
    have hlt : x.current < x.source.length := get?_lt hget
    have hstep : numberLoop x = numberLoop sc2 := by
      rw [numberLoop, dif_pos hg, hadv]
    subst hsc2
    obtain ⟨n, hloop, hble, hpk, hdig⟩ := ih (by simpa using hlt)
    rw [hstep, hloop]
    refine ⟨n + 1, ?_, ?_, ?_, ?_⟩
    · simp [Nat.add_assoc, Nat.add_comm 1 n]
    · simp at hble ⊢; omega
    · simpa [Nat.add_assoc, Nat.add_comm 1 n] using hpk
    · intro i hi1 hi2
      by_cases hic : i = x.current
      · subst hic
        exact ⟨c, hget, by rw [← peek_of_get hlt hget]; exact hg⟩
      · have := hdig i (by simp; omega) (by simp at hi2 ⊢; omega)
        simpa using this
  | case2 x hg hadv =>
    intro hle
    exfalso
    have hlt : x.current < x.source.length := by
      by_contra hge
      rw [peek_nul (by omega)] at hg
      simp [isNumberCh] at hg
    simp only [advance, Option.map_eq_none'] at hadv
    rw [List.get?_eq_none] at hadv
    omega
  | case3 x hg =>
    intro hle
    refine ⟨0, ?_, by omega, ?_, by omega⟩
    · rw [numberLoop, dif_neg hg]
      simp
    · simpa using hg

/-- Specification of the identifier loop: progress and bounds. -/
theorem identLoop_spec : ∀ (sc : Scanner), sc.current ≤ sc.source.length →
    ∃ n, identLoop sc = { sc with current := sc.current + n }
      ∧ sc.current + n ≤ sc.source.length := by
  intro sc
  induction sc using identLoop.induct with
  | case1 x hg c sc2 hadv ih =>
    intro hle
    obtain ⟨hget, hsc2⟩ := advance_eq_some hadv
    have hlt : x.current < x.source.length := get?_lt hget
    have hstep : identLoop x = identLoop sc2 := by
      rw [identLoop, dif_pos hg, hadv]
    subst hsc2
    obtain ⟨n, hloop, hble⟩ := ih (by simpa using hlt)
    rw [hstep, hloop]
    refine ⟨n + 1, ?_, ?_⟩
    · simp [Nat.add_assoc, Nat.add_comm 1 n]
    · simp at hble ⊢; omega
  | case2 x hg hadv =>
    intro hle
    exfalso
    have hlt : x.current < x.source.length := by
      by_contra hge
      rw [peek_nul (by omega)] at hg
      simp [isAlphaOrNumberCh, isAlphaCh, isNumberCh] at hg
    simp only [advance, Option.map_eq_none'] at hadv
    rw [List.get?_eq_none] at hadv
    omega
  | case3 x hg =>
    intro hle
    refine ⟨0, ?_, by omega⟩
    rw [identLoop, dif_neg hg]
    simp

/-- Specification of the comment loop: progress and bounds. -/
theorem advanceNextLine_spec : ∀ (sc : Scanner), sc.current ≤ sc.source.length →
    ∃ n, advanceNextLine sc = { sc with current := sc.current + n }
      ∧ sc.current + n ≤ sc.source.length := by
  intro sc
  induction sc using advanceNextLine.induct with
  | case1 x hg c sc2 hadv ih =>
    intro hle
    obtain ⟨hget, hsc2⟩ := advance_eq_some hadv
    have hlt : x.current < x.source.length := get?_lt hget
    have hstep : advanceNextLine x = advanceNextLine sc2 := by
      rw [advanceNextLine, dif_pos hg, hadv]
    subst hsc2
    obtain ⟨n, hloop, hble⟩ := ih (by simpa using hlt)
    rw [hstep, hloop]
    refine ⟨n + 1, ?_, ?_⟩
    · simp [Nat.add_assoc, Nat.add_comm 1 n]
    · simp at hble ⊢; omega
  | case2 x hg hadv =>
    intro hle
    exfalso
    have hlt : x.current < x.source.length := by
      have := hg.2
      simp [isAtEnd] at this
      omega
    simp only [advance, Option.map_eq_none'] at hadv
    rw [List.get?_eq_none] at hadv
    omega
  | case3 x hg =>
    intro hle
    refine ⟨0, ?_, by omega⟩
    rw [advanceNextLine, dif_neg hg]
    simp

/-- Specification of the string-literal loop: it advances to the closing
quote or the end of input, bumping the line counter once per newline
consumed. -/
theorem stringLoop_spec : ∀ (sc : Scanner), sc.current ≤ sc.source.length →
    ∃ n, stringLoop sc = { sc with
        current := sc.current + n
        line := sc.line + ((sc.source.drop sc.current).take n).count '\n' }
      ∧ sc.current + n ≤ sc.source.length
      ∧ (peek { sc with current := sc.current + n } = '"'
          ∨ sc.current + n = sc.source.length) := by
  intro sc
  induction sc using stringLoop.induct with
  | case1 x hg c sc2 hadv ih =>
    intro hle
    have hlt : x.current < x.source.length := by
      have := hg.2
      simp [isAtEnd] at this
      omega
    have hdrop : x.source.drop x.current
        = x.source.get ⟨x.current, hlt⟩ :: x.source.drop (x.current + 1) :=
      List.drop_eq_get_cons hlt
    have hpk : peek x = x.source.get ⟨x.current, hlt⟩ :=
      peek_of_get hlt (List.get?_eq_get hlt)
    by_cases hnl : peek x = '\n'
    · rw [dif_pos hnl] at hadv
      obtain ⟨hget, hsc2⟩ := advance_eq_some hadv
      simp only at hget hsc2
      have hstep : stringLoop x = stringLoop sc2 := by
        rw [stringLoop, dif_pos hg, if_pos hnl, hadv]
      subst hsc2
      obtain ⟨n, hloop, hble, hexit⟩ := ih (by simpa using hlt)
      rw [hstep, hloop]
      refine ⟨n + 1, ?_, ?_, ?_⟩
      · rw [Scanner.mk.injEq]
        refine ⟨rfl, rfl, rfl,
          by show x.current + 1 + n = x.current + (n + 1); omega, ?_, rfl, rfl⟩
        show x.line + 1 + (List.take n (List.drop (x.current + 1) x.source)).count '\n'
          = x.line + (List.take (n + 1) (List.drop x.current x.source)).count '\n'
        have hc : x.source.get ⟨x.current, hlt⟩ = '\n' := by rw [← hpk]; exact hnl
        rw [hdrop, List.take_succ_cons, List.count_cons, hc]
        simp
        omega
      · simp at hble ⊢; omega
      · rcases hexit with hq | hlen
        · left
          simp only [peek, peekAt] at hq ⊢
          simpa [Nat.add_assoc, Nat.add_comm 1 n] using hq
        · right
          simp at hlen ⊢
          omega
    · rw [dif_neg hnl] at hadv
      obtain ⟨hget, hsc2⟩ := advance_eq_some hadv
      have hstep : stringLoop x = stringLoop sc2 := by
        rw [stringLoop, dif_pos hg, if_neg hnl, hadv]
      subst hsc2
      obtain ⟨n, hloop, hble, hexit⟩ := ih (by simpa using hlt)
      rw [hstep, hloop]
      refine ⟨n + 1, ?_, ?_, ?_⟩
      · rw [Scanner.mk.injEq]
        refine ⟨rfl, rfl, rfl,
          by show x.current + 1 + n = x.current + (n + 1); omega, ?_, rfl, rfl⟩
        show x.line + (List.take n (List.drop (x.current + 1) x.source)).count '\n'
          = x.line + (List.take (n + 1) (List.drop x.current x.source)).count '\n'
        have hc : ¬ x.source.get ⟨x.current, hlt⟩ = '\n' := by rw [← hpk]; exact hnl
        rw [hdrop, List.take_succ_cons, List.count_cons]
        simp only [List.get_eq_getElem] at hc
        simp [hc]
      · simp at hble ⊢; omega
      · rcases hexit with hq | hlen
        · left
          simp only [peek, peekAt] at hq ⊢
          simpa [Nat.add_assoc, Nat.add_comm 1 n] using hq
        · right
          simp at hlen ⊢
          omega
  | case2 x hg hadv =>
    intro hle
    exfalso
    have hlt : x.current < x.source.length := by
      have := hg.2
      simp [isAtEnd] at this
      omega
    by_cases hnl : peek x = '\n' <;>
      [rw [dif_pos hnl] at hadv; rw [dif_neg hnl] at hadv] <;>
      · simp only [advance, Option.map_eq_none'] at hadv
        rw [List.get?_eq_none] at hadv
        try simp at hadv
        omega
  | case3 x hg =>
    intro hle
    have hg' := hg
    rw [not_and_or, not_not] at hg'
    refine ⟨0, ?_, by omega, ?_⟩
    · rw [stringLoop, dif_neg hg]
      simp
    · rcases hg' with hq | hend
      · left
        have hpp : peek { x with current := x.current + 0 } = peek x := by
          simp [peek, peekAt]
        rw [hpp]
        simpa using hq
      · right
        simp [isAtEnd] at hend
        omega

/-- An ASCII character occupies one UTF-8 byte. -/
theorem utf8Len_ascii {c : Char} (h : c.toNat < 128) : utf8Len c = 1 := by
  rw [utf8Len, if_pos (by omega)]

/-- On ASCII text, byte offsets coincide with character offsets, so an
in-bounds byte slice succeeds and is the corresponding character slice. -/
theorem byteSlice_ascii : ∀ (s : List Char) (a b : Nat),
    (∀ c ∈ s, c.toNat < 128) → a ≤ b → b ≤ s.length →
    byteSlice s a b = some ((s.drop a).take (b - a)) := by
  intro s
  induction s with
  | nil =>
    intro a b _ hab hb
    simp at hb
    subst hb
    have ha : a = 0 := by omega
    subst ha
    rfl
  | cons c rest ih =>
    intro a b hascii hab hb
    have hc : utf8Len c = 1 := utf8Len_ascii (hascii c (by simp))
    have hrest : ∀ x ∈ rest, x.toNat < 128 := fun x hx => hascii x (by simp [hx])
    match a, b with
    | 0, 0 => rfl
    | 0, b + 1 =>
      rw [show byteSlice (c :: rest) 0 (b + 1)
          = if utf8Len c ≤ b + 1 then
              (byteSlice rest 0 (b + 1 - utf8Len c)).map (c :: ·)
            else none from rfl]
      rw [if_pos (by omega), hc]
      simp only [Nat.add_sub_cancel]
      rw [ih 0 b hrest (by omega) (by simpa using hb)]
      simp
    | a + 1, b =>
      rw [show byteSlice (c :: rest) (a + 1) b
          = if utf8Len c ≤ a + 1 ∧ a + 1 ≤ b then
              byteSlice rest (a + 1 - utf8Len c) (b - utf8Len c)
            else none from rfl]
      rw [if_pos (by constructor <;> omega), hc]
      simp only [Nat.add_sub_cancel]
      have hb' : b - 1 ≤ rest.length := by simp at hb; omega
      rw [ih a (b - 1) hrest (by omega) hb']
      have : b - (a + 1) = b - 1 - a := by omega
      simp [this]

/-- On ASCII sources, `text()` succeeds and is the character slice from
`start` to `current`. -/
theorem text_ascii (sc : Scanner) (hascii : ∀ c ∈ sc.source, c.toNat < 128)
    (h1 : sc.start ≤ sc.current) (h2 : sc.current ≤ sc.source.length) :
    text sc = some ((sc.source.drop sc.start).take (sc.current - sc.start)) :=
  byteSlice_ascii sc.source sc.start sc.current hascii h1 h2

/-- On ASCII sources, `add_token` succeeds and appends one token. -/
theorem addToken_ascii (sc : Scanner) (ty : TokenType)
    (hascii : ∀ c ∈ sc.source, c.toNat < 128)
    (h1 : sc.start ≤ sc.current) (h2 : sc.current ≤ sc.source.length) :
    addToken sc ty = some { sc with tokens := sc.tokens
      ++ [⟨ty, String.mk ((sc.source.drop sc.start).take (sc.current - sc.start)),
          sc.line⟩] } := by
  rw [addToken, text_ascii sc hascii h1 h2]
  rfl

/-- `match_` either leaves the scanner unchanged or consumes exactly one
in-bounds character. -/
theorem matchCh_cases (sc : Scanner) (e : Char) :
    (matchCh sc e).2 = sc
    ∨ ((matchCh sc e).2 = { sc with current := sc.current + 1 }
        ∧ sc.current < sc.source.length) := by
  rw [matchCh]
  by_cases hend : isAtEnd sc
  · rw [if_pos hend]; exact Or.inl rfl
  · rw [if_neg hend]
    have hlt : sc.current < sc.source.length := by
      simp [isAtEnd] at hend
      omega
    cases hget : sc.source.get? sc.current with
    | none => exact Or.inl rfl
    | some c =>
      dsimp only
      by_cases hce : c ≠ e
      · rw [if_pos hce]; exact Or.inl rfl
      · rw [if_neg hce]; exact Or.inr ⟨rfl, hlt⟩

/-- `takeWhile` takes everything when the predicate holds throughout. -/
theorem takeWhile_all {p : Char → Bool} :
    ∀ {l : List Char}, (∀ c ∈ l, p c = true) → l.takeWhile p = l := by
  intro l
  induction l with
  | nil => intro _; rfl
  | cons c rest ih =>
    intro h
    rw [List.takeWhile_cons, if_pos (h c (by simp))]
    rw [ih fun x hx => h x (by simp [hx])]

/-- `takeWhile` stops exactly at the first failing element. -/
theorem takeWhile_append {p : Char → Bool} (x : Char) (l2 : List Char)
    (hx : p x = false) :
    ∀ (l1 : List Char), (∀ c ∈ l1, p c = true) →
    (l1 ++ x :: l2).takeWhile p = l1 := by
  intro l1
  induction l1 with
  | nil =>
    intro _
    simp [List.takeWhile_cons, hx]
  | cons c rest ih =>
    intro h
    rw [List.cons_append, List.takeWhile_cons, if_pos (h c (by simp))]
    rw [ih fun y hy => h y (by simp [hy])]

/-- `parse::<f64>()` succeeds on a nonempty digit string. -/
theorem parseF64_digits (l : List Char) (hne : l ≠ [])
    (hd : ∀ c ∈ l, c.isDigit = true) : ∃ v, parseF64 l = some v := by
  rw [parseF64]
  simp only [takeWhile_all hd, List.drop_length]
  rw [if_neg (by simpa using hne)]
  exact ⟨_, rfl⟩

/-- `parse::<f64>()` succeeds on `digits.digits`. -/
theorem parseF64_digits_dot (l1 l2 : List Char) (h1 : l1 ≠ [])
    (hd1 : ∀ c ∈ l1, c.isDigit = true) (h2 : l2 ≠ [])
    (hd2 : ∀ c ∈ l2, c.isDigit = true) :
    ∃ v, parseF64 (l1 ++ '.' :: l2) = some v := by
  rw [parseF64]
  simp only [takeWhile_append '.' l2 (by decide) l1 hd1, List.drop_left]
  rw [if_neg (by simpa using h1)]
  rw [if_neg ?hc]
  · exact ⟨_, rfl⟩
  case hc =>
    simp only [Bool.or_eq_true, Bool.not_eq_true']
    push_neg
    constructor
    · simpa using h2
    · simpa [List.all_eq_true] using hd2

/-- Every character of a pointwise-digit segment is a digit. -/
theorem all_digits_slice (l : List Char) (a n : Nat)
    (hpt : ∀ i, a ≤ i → i < a + n → ∃ c, l.get? i = some c ∧ isNumberCh c = true) :
    ∀ c ∈ (l.drop a).take n, c.isDigit = true := by
  intro c hc
  obtain ⟨j, hj⟩ := List.mem_iff_get?.mp hc
  have hjlt : j < ((l.drop a).take n).length := get?_lt hj
  have hjn : j < n := by
    have := List.length_take n (l.drop a)
    omega
  rw [List.get?_take hjn, List.get?_drop] at hj
  obtain ⟨c', hc', hdig⟩ := hpt (a + j) (by omega) (by omega)
  rw [hj] at hc'
  cases hc'
  exact hdig

/-- On ASCII sources, `Scanner::string` cannot panic, and it only moves
`current` forward within bounds.  (Entered after the opening quote was
consumed, so `start + 1 ≤ current`.) -/
theorem stringFn_ascii (sc : Scanner)
    (hascii : ∀ c ∈ sc.source, c.toNat < 128)
    (hsc : sc.start + 1 ≤ sc.current) (hle : sc.current ≤ sc.source.length) :
    ∃ sc', stringFn sc = some sc'
      ∧ sc'.source = sc.source ∧ sc.current ≤ sc'.current
      ∧ sc'.current ≤ sc.source.length := by
  obtain ⟨n, hloop, hble, hexit⟩ := stringLoop_spec sc hle
  rw [stringFn, hloop]
  by_cases hend : isAtEnd { sc with
      current := sc.current + n
      line := sc.line + ((sc.source.drop sc.current).take n).count '\n' }
  · rw [if_pos hend]
    exact ⟨_, rfl, rfl, by simp [report], by simp [report]; omega⟩
  · rw [if_neg hend]
    have hlt2 : sc.current + n < sc.source.length := by
      simp [isAtEnd] at hend
      omega
    obtain ⟨c, hget⟩ : ∃ c, sc.source.get? (sc.current + n) = some c := by
      cases h : sc.source.get? (sc.current + n) with
      | none => exact absurd (List.get?_eq_none.mp h) (by omega)
      | some c => exact ⟨c, rfl⟩
    have hadv : advance { sc with
        current := sc.current + n
        line := sc.line + ((sc.source.drop sc.current).take n).count '\n' }
        = some (c, { sc with
            current := sc.current + n + 1
            line := sc.line + ((sc.source.drop sc.current).take n).count '\n' }) := by
      have hget' := hget
      rw [List.get?_eq_getElem?] at hget'
      simp [advance, hget']
    rw [hadv]
    dsimp only
    simp only [Nat.add_sub_cancel]
    rw [byteSlice_ascii sc.source (sc.start + 1) (sc.current + n)
      hascii (by omega) (by omega)]
    dsimp only
    rw [addToken_ascii _ _ (by simpa using hascii) (by simp; omega) (by simp; omega)]
    exact ⟨_, rfl, rfl,
      by show sc.current ≤ sc.current + n + 1; omega,
      by show sc.current + n + 1 ≤ sc.source.length; omega⟩

/-- On ASCII sources, `Scanner::identifier` cannot panic, and it only
moves `current` forward within bounds. -/
theorem identifierFn_ascii (sc : Scanner)
    (hascii : ∀ c ∈ sc.source, c.toNat < 128)
    (hsc : sc.start ≤ sc.current) (hle : sc.current ≤ sc.source.length) :
    ∃ sc', identifierFn sc = some sc'
      ∧ sc'.source = sc.source ∧ sc.current ≤ sc'.current
      ∧ sc'.current ≤ sc.source.length := by
  obtain ⟨n, hloop, hble⟩ := identLoop_spec sc hle
  rw [identifierFn, hloop]
  rw [show text { sc with current := sc.current + n }
      = byteSlice sc.source sc.start (sc.current + n) from rfl]
  rw [byteSlice_ascii sc.source sc.start (sc.current + n)
    hascii (by omega) (by simpa using hble)]
  dsimp only
  rw [addToken_ascii _ _ (by simpa using hascii) (by simp; omega) (by simp; omega)]
  exact ⟨_, rfl, rfl, by simp, by simp; omega⟩

/-- The character slice taken by the number path decomposes around a
position: one leading character followed by the rest of the slice. -/
theorem slice_cons {l : List Char} {a : Nat} {d : Char} (m : Nat)
    (hget : l.get? a = some d) :
    (l.drop a).take (m + 1) = d :: (l.drop (a + 1)).take m := by
  have hlt : a < l.length := get?_lt hget
  rw [List.drop_eq_get_cons hlt, List.take_succ_cons]
  have hgd : l.get ⟨a, hlt⟩ = d := by
    rw [List.get?_eq_get hlt] at hget
    injection hget
  rw [hgd]

/-- On ASCII sources, `Scanner::number` cannot panic (in particular the
`parse().unwrap()` succeeds: the collected text is always
`[0-9]+(.[0-9]+)?`), and it only moves `current` forward within bounds.
(Entered after the leading digit was consumed: `current = start + 1` and
the character at `start` is a digit.) -/
theorem numberFn_ascii (sc : Scanner)
    (hascii : ∀ c ∈ sc.source, c.toNat < 128)
    (hcur : sc.current = sc.start + 1)
    (hle : sc.current ≤ sc.source.length)
    (hd0 : ∃ d, sc.source.get? sc.start = some d ∧ isNumberCh d = true) :
    ∃ sc', numberFn sc = some sc'
      ∧ sc'.source = sc.source ∧ sc.current ≤ sc'.current
      ∧ sc'.current ≤ sc.source.length := by
  obtain ⟨d, hgetd, hdd⟩ := hd0
  obtain ⟨n1, hloop1, hble1, hpk1, hdig1⟩ := numberLoop_spec sc hle
  have hl1 : ∀ c ∈ (sc.source.drop (sc.current)).take n1, c.isDigit = true :=
    all_digits_slice sc.source sc.current n1 hdig1
  rw [numberFn, hloop1]
  by_cases hcond : (decide (peek { sc with current := sc.current + n1 } = '.')
      && isNumberCh (peekAt { sc with current := sc.current + n1 } 1)) = true
  · -- a fractional part follows: `.` and at least one digit
    rw [if_pos hcond]
    rw [Bool.and_eq_true, decide_eq_true_iff] at hcond
    obtain ⟨hpkdot, hdignext⟩ := hcond
    have hlt1 : sc.current + n1 < sc.source.length := by
      by_contra hge
      rw [peek_nul (by simpa using Nat.le_of_not_lt hge)] at hpkdot
      exact absurd hpkdot (by decide)
    obtain ⟨ch, hgetc⟩ : ∃ ch, sc.source.get? (sc.current + n1) = some ch := by
      cases h : sc.source.get? (sc.current + n1) with
      | none => exact absurd (List.get?_eq_none.mp h) (by omega)
      | some ch => exact ⟨ch, rfl⟩
    have hchdot : ch = '.' := by
      rw [← hpkdot]
      exact (peek_of_get (by simpa using hlt1) (by simpa using hgetc)).symm
    have hadv : advance { sc with current := sc.current + n1 }
        = some (ch, { sc with current := sc.current + n1 + 1 }) := by
      have hgetc' := hgetc
      rw [List.get?_eq_getElem?] at hgetc'
      simp [advance, hgetc']
    rw [hadv]
    dsimp only
    obtain ⟨n2, hloop2, hble2, hpk2, hdig2⟩ :=
      numberLoop_spec { sc with current := sc.current + n1 + 1 } (by simpa using hlt1)
    simp only at hloop2 hble2 hpk2 hdig2
    rw [hloop2]
    have hdx : sc.source.length ≤ sc.current + n1 + 1
        ∨ (∃ e, sc.source.get? (sc.current + n1 + 1) = some e ∧ isNumberCh e = true) := by
      by_cases hx : sc.source.length ≤ sc.current + n1 + 1
      · exact Or.inl hx
      · right
        simp only [peekAt] at hdignext
        rw [if_neg (by omega)] at hdignext
        cases h : sc.source.get? (sc.current + n1 + 1) with
        | none => exact absurd (List.get?_eq_none.mp h) (by omega)
        | some e =>
          refine ⟨e, rfl, ?_⟩
          rw [List.get?_eq_getElem?] at h
          simpa [h] using hdignext
    have hn2pos : 1 ≤ n2 := by
      rcases hdx with hx | ⟨e, hgete, hdige⟩
      · -- `peek_at(1)` past the end is NUL, not a digit
        simp only [peekAt] at hdignext
        rw [if_pos (by simpa using hx)] at hdignext
        exact absurd hdignext (by decide)
      · by_contra hz
        have hn2 : n2 = 0 := by omega
        subst hn2
        have : peek { sc with current := sc.current + n1 + 1 + 0 } = e :=
          peek_of_get (by simpa using get?_lt hgete) (by simpa using hgete)
        rw [this] at hpk2
        rw [hdige] at hpk2
        exact Bool.noConfusion hpk2
    have hl2 : ∀ c ∈ (sc.source.drop (sc.current + n1 + 1)).take n2, c.isDigit = true :=
      all_digits_slice sc.source (sc.current + n1 + 1) n2 hdig2
    have hl2len : ((sc.source.drop (sc.current + n1 + 1)).take n2).length = n2 := by
      rw [List.length_take, List.length_drop]
      omega
    have htext : text { sc with current := sc.current + n1 + 1 + n2 }
        = some (((sc.source.drop sc.start).take ((sc.current + n1 + 1 + n2) - sc.start))) := by
      rw [show text { sc with current := sc.current + n1 + 1 + n2 }
          = byteSlice sc.source sc.start (sc.current + n1 + 1 + n2) from rfl]
      exact byteSlice_ascii sc.source _ _ hascii (by omega) (by omega)
    rw [htext]
    dsimp only
    have hdecomp : (sc.source.drop sc.start).take ((sc.current + n1 + 1 + n2) - sc.start)
        = (d :: (sc.source.drop (sc.current)).take n1)
          ++ '.' :: (sc.source.drop (sc.current + n1 + 1)).take n2 := by
      have he : (sc.current + n1 + 1 + n2) - sc.start = (n1 + 1) + (n2 + 1) := by omega
      rw [he, List.take_add, List.drop_drop]
      have h1 : (sc.source.drop sc.start).take (n1 + 1)
          = d :: (sc.source.drop (sc.start + 1)).take n1 := slice_cons n1 hgetd
      have h2 : (sc.source.drop (sc.start + (n1 + 1))).take (n2 + 1)
          = ch :: (sc.source.drop (sc.start + (n1 + 1) + 1)).take n2 := by
        apply slice_cons
        rw [show sc.start + (n1 + 1) = sc.current + n1 by omega]
        exact hgetc
      rw [h1, h2, hchdot]
      rw [show sc.start + 1 = sc.current by omega]
      try rw [show sc.start + (n1 + 1) + 1 = sc.current + n1 + 1 by omega]
      try rfl
    rw [hdecomp]
    obtain ⟨v, hv⟩ := parseF64_digits_dot
      (d :: (sc.source.drop sc.current).take n1)
      ((sc.source.drop (sc.current + n1 + 1)).take n2) (by simp)
      (by
        intro x hx
        rcases List.mem_cons.mp hx with h | h
        · subst h; simpa [isNumberCh] using hdd
        · exact hl1 x h)
      (by
        intro hnil
        rw [hnil] at hl2len
        simp at hl2len
        omega)
      hl2
    rw [hv]
    dsimp only
    rw [addToken_ascii _ _ (by simpa using hascii) (by simp; omega) (by simp; omega)]
    exact ⟨_, rfl, rfl,
      by show sc.current ≤ sc.current + n1 + 1 + n2; omega,
      by show sc.current + n1 + 1 + n2 ≤ sc.source.length; omega⟩
  · -- no fractional part
    rw [if_neg hcond]
    have htext : text { sc with current := sc.current + n1 }
        = some (((sc.source.drop sc.start).take ((sc.current + n1) - sc.start))) := by
      rw [show text { sc with current := sc.current + n1 }
          = byteSlice sc.source sc.start (sc.current + n1) from rfl]
      exact byteSlice_ascii sc.source _ _ hascii (by omega) (by simpa using hble1)
    rw [htext]
    dsimp only
    have hdecomp : (sc.source.drop sc.start).take ((sc.current + n1) - sc.start)
        = d :: (sc.source.drop sc.current).take n1 := by
      rw [show (sc.current + n1) - sc.start = n1 + 1 by omega]
      rw [slice_cons n1 hgetd]
      rw [show sc.start + 1 = sc.current by omega]
    rw [hdecomp]
    obtain ⟨v, hv⟩ := parseF64_digits
      (d :: (sc.source.drop sc.current).take n1) (by simp)
      (by
        intro x hx
        rcases List.mem_cons.mp hx with h | h
        · subst h; simpa [isNumberCh] using hdd
        · exact hl1 x h)
    rw [hv]
    dsimp only
    rw [addToken_ascii _ _ (by simpa using hascii) (by simp; omega) (by simp; omega)]
    exact ⟨_, rfl, rfl,
      by show sc.current ≤ sc.current + n1; omega,
      by show sc.current + n1 ≤ sc.source.length; simpa using hble1⟩

/-- A token-emitting arm of `scan_token`: on ASCII sources `add_token`
succeeds after `k` characters of the token were consumed. -/
theorem scanArmAdd (sc : Scanner) (k : Nat) (ty : TokenType)
    (hascii : ∀ c ∈ sc.source, c.toNat < 128)
    (h1 : sc.start ≤ sc.current + k) (h2 : sc.current + k ≤ sc.source.length)
    (hkpos : 0 < k) :
    ∃ sc', addToken { sc with current := sc.current + k } ty = some sc'
      ∧ sc'.source = sc.source ∧ sc.current < sc'.current
      ∧ sc'.current ≤ sc.source.length := by
  rw [addToken_ascii _ _ (by simpa using hascii)
    (by show sc.start ≤ sc.current + k; omega)
    (by show sc.current + k ≤ sc.source.length; omega)]
  exact ⟨_, rfl, rfl, by show sc.current < sc.current + k; omega,
    by show sc.current + k ≤ sc.source.length; omega⟩

/-- A two-character operator arm of `scan_token` (the `match_`-then-
`add_token` pattern): on ASCII sources it succeeds and consumes one or two
characters. -/
theorem scanArmTwo (sc : Scanner) (c : Char) (t1 t2 : TokenType)
    (hascii : ∀ ch ∈ sc.source, ch.toNat < 128)
    (hstart : sc.start = sc.current)
    (hlt : sc.current < sc.source.length) :
    ∃ sc', (if (matchCh { sc with current := sc.current + 1 } c).1 = true
        then addToken (matchCh { sc with current := sc.current + 1 } c).2 t1
        else addToken (matchCh { sc with current := sc.current + 1 } c).2 t2)
      = some sc'
      ∧ sc'.source = sc.source ∧ sc.current < sc'.current
      ∧ sc'.current ≤ sc.source.length := by
  by_cases hb : (matchCh { sc with current := sc.current + 1 } c).1 = true
  · rw [if_pos hb]
    rcases matchCh_cases { sc with current := sc.current + 1 } c
      with hm | ⟨hm, hmlt⟩ <;> rw [hm]
    · exact scanArmAdd sc 1 _ hascii (by omega) (by omega) (by omega)
    · have hmlt' : sc.current + 1 < sc.source.length := hmlt
      exact scanArmAdd sc 2 _ hascii (by omega) (by omega) (by omega)
  · rw [if_neg hb]
    rcases matchCh_cases { sc with current := sc.current + 1 } c
      with hm | ⟨hm, hmlt⟩ <;> rw [hm]
    · exact scanArmAdd sc 1 _ hascii (by omega) (by omega) (by omega)
    · have hmlt' : sc.current + 1 < sc.source.length := hmlt
      exact scanArmAdd sc 2 _ hascii (by omega) (by omega) (by omega)

/-- On ASCII sources, `scan_token` never panics, consumes at least one
character, and stays within bounds.  (`start` was just reset to `current`
by the scanning loop.) -/
theorem scanToken_ascii (sc : Scanner)
    (hascii : ∀ c ∈ sc.source, c.toNat < 128)
    (hstart : sc.start = sc.current)
    (hlt : sc.current < sc.source.length) :
    ∃ sc', scanToken sc = some sc'
      ∧ sc'.source = sc.source
      ∧ sc.current < sc'.current
      ∧ sc'.current ≤ sc.source.length := by
  obtain ⟨c0, hget⟩ : ∃ c, sc.source.get? sc.current = some c := by
    cases h : sc.source.get? sc.current with
    | none => exact absurd (List.get?_eq_none.mp h) (by omega)
    | some c => exact ⟨c, rfl⟩
  have hadv : advance sc = some (c0, { sc with current := sc.current + 1 }) := by
    have hget' := hget
    rw [List.get?_eq_getElem?] at hget'
    simp [advance, hget']
  rw [scanToken, hadv]
  dsimp only
  by_cases h01 : c0 = '('
  · rw [if_pos h01]
    exact scanArmAdd sc 1 _ hascii (by omega) (by omega) (by omega)
  rw [if_neg h01]
  by_cases h02 : c0 = ')'
  · rw [if_pos h02]
    exact scanArmAdd sc 1 _ hascii (by omega) (by omega) (by omega)
  rw [if_neg h02]
  by_cases h03 : c0 = '\x7b'
  · rw [if_pos h03]
    exact scanArmAdd sc 1 _ hascii (by omega) (by omega) (by omega)
  rw [if_neg h03]
  by_cases h04 : c0 = '\x7d'
  · rw [if_pos h04]
    exact scanArmAdd sc 1 _ hascii (by omega) (by omega) (by omega)
  rw [if_neg h04]
  by_cases h05 : c0 = ','
  · rw [if_pos h05]
    exact scanArmAdd sc 1 _ hascii (by omega) (by omega) (by omega)
  rw [if_neg h05]
  by_cases h06 : c0 = '.'
  · rw [if_pos h06]
    exact scanArmAdd sc 1 _ hascii (by omega) (by omega) (by omega)
  rw [if_neg h06]
  by_cases h07 : c0 = '-'
  · rw [if_pos h07]
    exact scanArmAdd sc 1 _ hascii (by omega) (by omega) (by omega)
  rw [if_neg h07]
  by_cases h08 : c0 = '+'
  · rw [if_pos h08]
    exact scanArmAdd sc 1 _ hascii (by omega) (by omega) (by omega)
  rw [if_neg h08]
  by_cases h09 : c0 = ';'
  · rw [if_pos h09]
    exact scanArmAdd sc 1 _ hascii (by omega) (by omega) (by omega)
  rw [if_neg h09]
  by_cases h10 : c0 = '*'
  · rw [if_pos h10]
    exact scanArmAdd sc 1 _ hascii (by omega) (by omega) (by omega)
  rw [if_neg h10]
  by_cases h11 : c0 = '='
  · rw [if_pos h11]
    exact scanArmTwo sc '=' _ _ hascii hstart hlt
  rw [if_neg h11]
  by_cases h12 : c0 = '!'
  · rw [if_pos h12]
    exact scanArmTwo sc '=' _ _ hascii hstart hlt
  rw [if_neg h12]
  by_cases h13 : c0 = '<'
  · rw [if_pos h13]
    exact scanArmTwo sc '=' _ _ hascii hstart hlt
  rw [if_neg h13]
  by_cases h14 : c0 = '>'
  · rw [if_pos h14]
    exact scanArmTwo sc '=' _ _ hascii hstart hlt
  rw [if_neg h14]
  by_cases h15 : c0 = '/'
  · rw [if_pos h15]
    by_cases hb : (matchCh { sc with current := sc.current + 1 } '/').1 = true
    · rw [if_pos hb]
      rcases matchCh_cases { sc with current := sc.current + 1 } '/'
        with hm | ⟨hm, hmlt⟩
      · rw [hm]
        obtain ⟨n, hA, hAle⟩ := advanceNextLine_spec { sc with current := sc.current + 1 }
          (by show sc.current + 1 ≤ sc.source.length; omega)
        rw [hA]
        have hAle' : sc.current + 1 + n ≤ sc.source.length := hAle
        exact ⟨_, rfl, rfl, by show sc.current < sc.current + 1 + n; omega,
          by show sc.current + 1 + n ≤ sc.source.length; omega⟩
      · have hmlt' : sc.current + 1 < sc.source.length := hmlt
        rw [hm]
        show ∃ sc', some (advanceNextLine { sc with current := sc.current + 1 + 1 })
            = some sc'
          ∧ sc'.source = sc.source ∧ sc.current < sc'.current
          ∧ sc'.current ≤ sc.source.length
        obtain ⟨n, hA, hAle⟩ := advanceNextLine_spec
          { sc with current := sc.current + 1 + 1 }
          (by show sc.current + 1 + 1 ≤ sc.source.length; omega)
        rw [hA]
        have hAle' : sc.current + 1 + 1 + n ≤ sc.source.length := hAle
        exact ⟨_, rfl, rfl, by show sc.current < sc.current + 1 + 1 + n; omega,
          by show sc.current + 1 + 1 + n ≤ sc.source.length; omega⟩
    · rw [if_neg hb]
      rcases matchCh_cases { sc with current := sc.current + 1 } '/'
        with hm | ⟨hm, hmlt⟩ <;> rw [hm]
      · exact scanArmAdd sc 1 _ hascii (by omega) (by omega) (by omega)
      · have hmlt' : sc.current + 1 < sc.source.length := hmlt
        exact scanArmAdd sc 2 _ hascii (by omega) (by omega) (by omega)
  rw [if_neg h15]
  by_cases h16 : c0 = ' ' ∨ c0 = '\r' ∨ c0 = '\t'
  · rw [if_pos h16]
    exact ⟨_, rfl, rfl, by show sc.current < sc.current + 1; omega,
      by show sc.current + 1 ≤ sc.source.length; omega⟩
  rw [if_neg h16]
  by_cases h17 : c0 = '\n'
  · rw [if_pos h17]
    exact ⟨_, rfl, rfl, by show sc.current < sc.current + 1; omega,
      by show sc.current + 1 ≤ sc.source.length; omega⟩
  rw [if_neg h17]
  by_cases h18 : c0 = '"'
  · rw [if_pos h18]
    obtain ⟨sc', heq, h3, h4, h5⟩ := stringFn_ascii { sc with current := sc.current + 1 }
      (by simpa using hascii) (by show sc.start + 1 ≤ sc.current + 1; omega)
      (by show sc.current + 1 ≤ sc.source.length; omega)
    have h4' : sc.current + 1 ≤ sc'.current := h4
    have h5' : sc'.current ≤ sc.source.length := h5
    exact ⟨sc', heq, h3, by omega, h5'⟩
  rw [if_neg h18]
  by_cases h19 : isNumberCh c0 = true
  · rw [if_pos h19]
    obtain ⟨sc', heq, h3, h4, h5⟩ := numberFn_ascii { sc with current := sc.current + 1 }
      (by simpa using hascii)
      (by show sc.current + 1 = sc.start + 1; omega)
      (by show sc.current + 1 ≤ sc.source.length; omega)
      ⟨c0, by show sc.source.get? sc.start = some c0; rw [hstart]; exact hget, h19⟩
    have h4' : sc.current + 1 ≤ sc'.current := h4
    have h5' : sc'.current ≤ sc.source.length := h5
    exact ⟨sc', heq, h3, by omega, h5'⟩
  rw [if_neg h19]
  by_cases h20 : isAlphaOrNumberCh c0 = true
  · rw [if_pos h20]
    obtain ⟨sc', heq, h3, h4, h5⟩ := identifierFn_ascii { sc with current := sc.current + 1 }
      (by simpa using hascii) (by show sc.start ≤ sc.current + 1; omega)
      (by show sc.current + 1 ≤ sc.source.length; omega)
    have h4' : sc.current + 1 ≤ sc'.current := h4
    have h5' : sc'.current ≤ sc.source.length := h5
    exact ⟨sc', heq, h3, by omega, h5'⟩
  rw [if_neg h20]
  exact ⟨_, rfl, rfl, by show sc.current < sc.current + 1; omega,
    by show sc.current + 1 ≤ sc.source.length; omega⟩

/-- On ASCII sources, the scanning loop finishes once the fuel exceeds the
number of unread characters (each `scan_token` consumes at least one). -/
theorem scanLoop_ascii (fuel : Nat) : ∀ (sc : Scanner),
    (∀ c ∈ sc.source, c.toNat < 128) → sc.current ≤ sc.source.length →
    sc.source.length - sc.current < fuel →
    ∃ sc', scanLoop fuel sc = .done sc' := by
  induction fuel with
  | zero => intro sc _ _ hf; omega
  | succ f ih =>
    intro sc hascii hle hf
    rw [scanLoop]
    by_cases hend : isAtEnd sc = true
    · rw [if_neg (by simp [hend])]
      exact ⟨sc, rfl⟩
    · rw [if_pos hend]
      have hlt : sc.current < sc.source.length := by
        simp [isAtEnd] at hend; omega
      obtain ⟨sc2, hst, hsrc, hc1, hc2⟩ :=
        scanToken_ascii { sc with start := sc.current }
          (by simpa using hascii) rfl hlt
      have hsrc' : sc2.source = sc.source := hsrc
      have hc1' : sc.current < sc2.current := hc1
      have hc2' : sc2.current ≤ sc.source.length := hc2
      rw [hst]
      have hlen := congrArg List.length hsrc'
      obtain ⟨sc', hdone⟩ := ih sc2 (by rw [hsrc']; exact hascii)
        (by omega) (by omega)
      exact ⟨sc', hdone⟩

/-- One unfolding step of the `Scanner::string` loop. -/
theorem stringLoop_step (c : Char) {sc sc2 : Scanner}
    (hg : peek sc ≠ '"' ∧ ¬ isAtEnd sc = true)
    (hadv : advance (if peek sc = '\n' then { sc with line := sc.line + 1 } else sc)
      = some (c, sc2)) :
    stringLoop sc = stringLoop sc2 := by
  rw [stringLoop, dif_pos hg, hadv]

/-- Termination of the `Scanner::string` loop at a quote or at the end. -/
theorem stringLoop_exit {sc : Scanner}
    (hg : ¬ (peek sc ≠ '"' ∧ ¬ isAtEnd sc = true)) :
    stringLoop sc = sc := by
  rw [stringLoop, dif_neg hg]

/-! ## Claim C3 — scanner totality and the trailing EOF token -/

/-- Claim C3, counterexample: on a non-ASCII input, `scan_tokens` panics.
The scanner slices `self.source` (a `str`, indexed by bytes) at
*character*-count offsets; on `"é"` the string-literal slice
`&source[1..2]` falls inside the two-byte character `é`, which panics in
Rust (modelled as the `none` of `byteSlice`). -/
theorem c3_counterexample :
    scanTokens 4 (Scanner.new ['"', Char.ofNat 233, '"']) = ScanOut.panicked := by
  have hstep1 : stringLoop ⟨['"', Char.ofNat 233, '"'], [], 0, 1, 1, false, []⟩
      = stringLoop ⟨['"', Char.ofNat 233, '"'], [], 0, 2, 1, false, []⟩ :=
    stringLoop_step (Char.ofNat 233) (by decide) (by decide)
  have hstep2 : stringLoop ⟨['"', Char.ofNat 233, '"'], [], 0, 2, 1, false, []⟩
      = ⟨['"', Char.ofNat 233, '"'], [], 0, 2, 1, false, []⟩ :=
    stringLoop_exit (by decide)
  have h1 := hstep1.trans hstep2
  simp [scanTokens, scanLoop, scanToken, Scanner.new, advance, isAtEnd,
    stringFn, h1, peek, peekAt, byteSlice, utf8Len]

/-- Claim C3 (amended): on every ASCII input, `scan_tokens` terminates
without panicking —`source.length + 1` loop iterations suffice — and its
token list ends with an EOF token whose lexeme is the empty string.  (On
non-ASCII inputs the byte/char index confusion of `c3_counterexample` can
panic, so totality holds only with this restriction.) -/
theorem c3_scanner_ascii_totality (source : List Char)
    (hascii : ∀ c ∈ source, c.toNat < 128) :
    ∃ sc', scanTokens (source.length + 1) (Scanner.new source) = .done sc'
      ∧ ∃ l, sc'.tokens.getLast? = some ⟨.eof, "", l⟩ := by
  obtain ⟨sc1, hdone⟩ := scanLoop_ascii (source.length + 1) (Scanner.new source)
    hascii (Nat.zero_le _) (by show source.length - 0 < source.length + 1; omega)
  rw [scanTokens, hdone]
  exact ⟨_, rfl, sc1.line, List.getLast?_concat _⟩

/-- Claim C3, witness: scanning the ASCII input `1+2`. -/
theorem c3_witness :
    ∃ sc', scanTokens (['1', '+', '2'].length + 1) (Scanner.new ['1', '+', '2'])
        = .done sc'
      ∧ ∃ l, sc'.tokens.getLast? = some ⟨.eof, "", l⟩ :=
  c3_scanner_ascii_totality ['1', '+', '2'] (by decide)

/-! ## Claim C7 — unterminated string literals -/

/-- Claim C7: when `scan_token` meets a `"` that is never closed before the
end of input, it consumes everything, reports exactly one error
`Unterminated string.` at the line counter reached at EOF (the opening line
plus the newlines inside the unterminated literal), sets `had_error`, and
appends no token. -/
theorem c7_unterminated_string (sc : Scanner)
    (hq : sc.source.get? sc.current = some '"')
    (hnoclose : ∀ i, sc.current + 1 ≤ i → i < sc.source.length →
        sc.source.get? i ≠ some '"') :
    scanToken sc = some { sc with
      current := sc.source.length
      line := sc.line + (sc.source.drop (sc.current + 1)).count '\n'
      hadError := true
      errors := sc.errors
        ++ [(sc.line + (sc.source.drop (sc.current + 1)).count '\n',
             "Unterminated string.")] } := by
  have hlt : sc.current < sc.source.length := get?_lt hq
  have hadv : advance sc = some ('"', { sc with current := sc.current + 1 }) := by
    have hq' := hq
    rw [List.get?_eq_getElem?] at hq'
    simp [advance, hq']
  rw [scanToken, hadv]
  dsimp only
  rw [if_neg (by decide), if_neg (by decide), if_neg (by decide),
    if_neg (by decide), if_neg (by decide), if_neg (by decide),
    if_neg (by decide), if_neg (by decide), if_neg (by decide),
    if_neg (by decide), if_neg (by decide), if_neg (by decide),
    if_neg (by decide), if_neg (by decide), if_neg (by decide),
    if_neg (by decide), if_neg (by decide), if_pos rfl]
  obtain ⟨n, hloop, hble, hexit⟩ :=
    stringLoop_spec { sc with current := sc.current + 1 }
      (by show sc.current + 1 ≤ sc.source.length; omega)
  have hble' : sc.current + 1 + n ≤ sc.source.length := hble
  have hn : sc.current + 1 + n = sc.source.length := by
    rcases hexit with hpk | hend
    · by_cases hcase : sc.current + 1 + n < sc.source.length
      · exfalso
        have hget : sc.source.get? (sc.current + 1 + n)
            = some (sc.source.get ⟨sc.current + 1 + n, hcase⟩) :=
          List.get?_eq_get hcase
        have hpkeq := @peek_of_get { sc with
            current := sc.current + 1 + n
            line := sc.line
              + ((sc.source.drop (sc.current + 1)).take n).count '\n' }
          (sc.source.get ⟨sc.current + 1 + n, hcase⟩) hcase hget
        have hpk' : peek { sc with
            current := sc.current + 1 + n
            line := sc.line
              + ((sc.source.drop (sc.current + 1)).take n).count '\n' } = '"' := hpk
        rw [hpkeq] at hpk'
        exact hnoclose (sc.current + 1 + n) (by omega) hcase (by rw [hget, hpk'])
      · omega
    · exact hend
  have htake : (sc.source.drop (sc.current + 1)).take n
      = sc.source.drop (sc.current + 1) :=
    List.take_of_length_le (by simp; omega)
  rw [stringFn]
  rw [hloop]
  rw [if_pos (by simp [isAtEnd]; omega)]
  refine congrArg some ?_
  show ({ sc with
      current := sc.current + 1 + n
      line := sc.line + ((sc.source.drop (sc.current + 1)).take n).count '\n'
      hadError := true
      errors := sc.errors
        ++ [(sc.line + ((sc.source.drop (sc.current + 1)).take n).count '\n',
             "Unterminated string.")] } : Scanner) = _
  rw [htake, hn]

/-- Claim C7, witness: scanning the input consisting of a quote, a letter,
a newline, and another letter — the string is opened on line 1 and never
closed; the error is reported at the line counter reached at EOF
(line 2). -/
theorem c7_witness :
    scanToken ⟨['"', 'a', Char.ofNat 10, 'b'], [], 0, 0, 1, false, []⟩
      = some ⟨['"', 'a', Char.ofNat 10, 'b'], [], 0, 4, 2, true,
          [(2, "Unterminated string.")]⟩ := by
  have h := c7_unterminated_string ⟨['"', 'a', Char.ofNat 10, 'b'], [], 0, 0, 1, false, []⟩
    rfl (by
      intro i h1 h2
      have h2' : i < 4 := h2
      interval_cases i <;> simp)
  simpa using h

/-! ## Claim C10 — calling a class that has no `init` -/

/-- Claim C10: calling a class with no `init` method anywhere on its
superclass chain never raises an arity error: the callee and then the
arguments are evaluated (left-to-right, as `evaluate`'s `Call` arm
sequences them), the argument values are discarded, and the call yields a
fresh instance of the class with an empty field map — the state changes
only by that one allocation, whatever the arguments were. -/
theorem c10_class_call_without_init (fuel : Nat) (calleeE : Expression)
    (paren : Token) (argsE : List Expression) (cls : Nat) (vs : List Value)
    (s s1 s2 : InterpState)
    (hcallee : evaluate (fuel + 1) calleeE s = (.ok (Value.classRef cls), s1))
    (hargs : evaluateArgs (fuel + 1) argsE s1 = (.ok vs, s2))
    (hnoinit : findFunction fuel (s2.heap ++ [Obj.instObj ⟨cls, []⟩]) cls "init"
        = .ok none) :
    evaluate (fuel + 2) (Expression.call calleeE paren argsE) s
      = (.ok (Value.inst s2.heap.length),
         { s2 with heap := s2.heap ++ [Obj.instObj ⟨cls, []⟩] }) := by
  show (Bind.bind (evaluate (fuel + 1) calleeE) _) s = _
  simp only [Bind.bind, M.bind, hcallee, hargs]
  show callClass (fuel + 1) cls vs paren s2 = _
  simp only [callClass, Heap.alloc, hnoinit]

/-- Claim C10, witness: a concrete call of a class with no `init` and two
(discarded) arguments. -/
theorem c10_witness :
    evaluate 5 (Expression.call (Expression.var 1 ⟨.identifier, "C", 1⟩)
        ⟨.rightParen, ")", 1⟩
        [Expression.literal Literal.nil, Expression.literal (Literal.number (F64.val 4))])
      ⟨[.frame ⟨none, [("C", Value.classRef 1)]⟩, .classObj ⟨"C", none, []⟩],
        0, 0, [(1, 0)], [], F64.val 0⟩
      = (.ok (Value.inst 2),
         ⟨[.frame ⟨none, [("C", Value.classRef 1)]⟩, .classObj ⟨"C", none, []⟩,
           .instObj ⟨1, []⟩], 0, 0, [(1, 0)], [], F64.val 0⟩) :=
  c10_class_call_without_init 3 (Expression.var 1 ⟨.identifier, "C", 1⟩)
    ⟨.rightParen, ")", 1⟩
    [Expression.literal Literal.nil, Expression.literal (Literal.number (F64.val 4))]
    1 [Value.nil, Value.number (F64.val 4)]
    ⟨[.frame ⟨none, [("C", Value.classRef 1)]⟩, .classObj ⟨"C", none, []⟩],
      0, 0, [(1, 0)], [], F64.val 0⟩
    ⟨[.frame ⟨none, [("C", Value.classRef 1)]⟩, .classObj ⟨"C", none, []⟩],
      0, 0, [(1, 0)], [], F64.val 0⟩
    ⟨[.frame ⟨none, [("C", Value.classRef 1)]⟩, .classObj ⟨"C", none, []⟩],
      0, 0, [(1, 0)], [], F64.val 0⟩
    rfl rfl rfl

end Lox
